import Mathlib

/-!
Verification of the Translate_Tool backend against its natural-language
specification.

Each Python function relevant to the checked claims is shallowly embedded as
an executable Lean definition; machine floats become exact rationals, Python
strings become Lean strings processed at the character-list level, SQLite
state becomes an explicit record, and the HTTP model backend becomes an
abstract function parameter.  Character predicates model the ASCII fragment
of the corresponding Python unicode-aware methods; all claim inputs are
ASCII.
-/

namespace TranslateTool

/-! ## Python string primitives (ASCII fragment)

Python `str.strip`, `str.lower`, `str.split(sep)`, the `in` operator and
`\s`, `\d` character classes, modelled over `List Char` by structural
recursion so every definition evaluates inside the kernel.
-/

/-- Python whitespace class `\s` over ASCII: space, tab, newline, carriage
return, vertical tab and form feed. -/
def py_is_space (c : Char) : Bool :=
  c = ' ' || c = '\t' || c = '\n' || c = '\r' || c = '\x0b' || c = '\x0c'

/-- ASCII fragment of Python `str.isdigit` for a single character. -/
def py_is_digit (c : Char) : Bool :=
  decide (48 ≤ c.toNat ∧ c.toNat ≤ 57)

/-- ASCII fragment of Python `str.isalpha` for a single character. -/
def py_is_alpha (c : Char) : Bool :=
  decide ((97 ≤ c.toNat ∧ c.toNat ≤ 122) ∨ (65 ≤ c.toNat ∧ c.toNat ≤ 90))

/-- ASCII fragment of Python `str.isalnum` for a single character. -/
def py_is_alnum (c : Char) : Bool :=
  py_is_alpha c || py_is_digit c

/-- ASCII `str.lower` for a single character. -/
def py_char_lower (c : Char) : Char :=
  if 'A' ≤ c && c ≤ 'Z' then Char.ofNat (c.toNat + 32) else c

/-- Python `str.lower` (ASCII fragment). -/
def py_lower (s : String) : String :=
  String.mk (s.data.map py_char_lower)

/-- Strip leading and trailing Python whitespace from a character list. -/
def py_strip_list (l : List Char) : List Char :=
  ((l.dropWhile py_is_space).reverse.dropWhile py_is_space).reverse

/-- Python `str.strip()` (whitespace on both ends). -/
def py_strip (s : String) : String :=
  String.mk (py_strip_list s.data)

/-- Python substring containment `needle in hay` over character lists. -/
def list_contains_sub (needle : List Char) : List Char → Bool
  | [] => needle.isEmpty
  | c :: rest => needle.isPrefixOf (c :: rest) || list_contains_sub needle rest

/-- Python substring containment `needle in hay`. -/
def py_contains (hay needle : String) : Bool :=
  list_contains_sub needle.data hay.data

/-- Auxiliary for `py_split`: split a character list at every occurrence of
the nonempty separator `sc :: sr`, scanning left to right (Python
`str.split(sep)`).  Every step consumes at least one character, so the fuel
`length + 1` supplied by `py_split` is never exhausted; the fuel keeps the
recursion structural so that the kernel can evaluate it. -/
def py_split_fuel (sc : Char) (sr : List Char) :
    Nat → List Char → List Char → List (List Char)
  | _, [], acc => [acc.reverse]
  | 0, l, acc => [acc.reverse ++ l]
  | fuel + 1, c :: rest, acc =>
    if (sc :: sr).isPrefixOf (c :: rest) then
      acc.reverse :: py_split_fuel sc sr fuel (rest.drop sr.length) []
    else
      py_split_fuel sc sr fuel rest (c :: acc)

/-- Python `str.split(sep)` for a nonempty separator (keeps empty pieces,
exactly like the Python method).  An empty separator is a `ValueError` in
Python and never occurs in the embedded code. -/
def py_split (s sep : String) : List String :=
  match sep.data with
  | [] => [s]
  | sc :: sr => (py_split_fuel sc sr (s.data.length + 1) s.data []).map String.mk

/-- Python `str.join`: concatenation of a list of strings (used with the
empty joiner by `"".join`). -/
def py_concat : List String → String
  | [] => ""
  | s :: rest => s ++ py_concat rest

/-- Python `sep.join(parts)`. -/
def py_join (sep : String) (parts : List String) : String :=
  String.intercalate sep parts

/-- Python `text[:n]`. -/
def py_take (s : String) (n : Nat) : String :=
  String.mk (s.data.take n)

/-- Interpret a digit run as a natural number, as Python `int` does on the
match of a `(\d+)` group. -/
def digits_to_nat (ds : List Char) : Nat :=
  ds.foldl (fun n c => n * 10 + (c.toNat - 48)) 0

/-- Python banker's rounding `round(q)` on an exact rational: round half to
even. -/
def py_round (q : ℚ) : ℤ :=
  let f : ℤ := ⌊q⌋
  let frac : ℚ := q - f
  if frac < 1 / 2 then f
  else if (1 : ℚ) / 2 < frac then f + 1
  else if f % 2 = 0 then f else f + 1

/-! ## bbox_utils.normalize_bbox (src/app/backend/utils/bbox_utils.py)

The internal coordinate system is top-left origin, y down.  Floats are
modelled as exact rationals.
-/

/-- `models/translatable_document.py` `BoundingBox`: four coordinates with
top-left origin. -/
structure BoundingBox where
  x0 : ℚ
  y0 : ℚ
  x1 : ℚ
  y1 : ℚ
deriving DecidableEq, Repr

/-- The coordinate tuple of a box, as a caller would feed a produced box back
into `normalize_bbox`. -/
def BoundingBox.toTuple (b : BoundingBox) : ℚ × ℚ × ℚ × ℚ :=
  (b.x0, b.y0, b.x1, b.y1)

/-- `bbox_utils.normalize_bbox`: optionally flip from PDF bottom-left-origin
coordinates via `y := page_height - y`, then order each coordinate pair. -/
def normalize_bbox (bbox : ℚ × ℚ × ℚ × ℚ) (page_height : ℚ)
    (from_pdf_coords : Bool) : BoundingBox :=
  let bx0 := bbox.1
  let by0 := bbox.2.1
  let bx1 := bbox.2.2.1
  let by1 := bbox.2.2.2
  let fy0 := if from_pdf_coords then page_height - by1 else by0
  let fy1 := if from_pdf_coords then page_height - by0 else by1
  let xlo := if bx0 > bx1 then bx1 else bx0
  let xhi := if bx0 > bx1 then bx0 else bx1
  let ylo := if fy0 > fy1 then fy1 else fy0
  let yhi := if fy0 > fy1 then fy0 else fy1
  ⟨xlo, ylo, xhi, yhi⟩

/-- On a box whose coordinate pairs are already ordered, a PDF-coordinate
normalization flips the y pair and keeps x. -/
theorem normalize_bbox_of_sorted (x0 y0 x1 y1 H : ℚ) (hx : x0 ≤ x1)
    (hy : y0 ≤ y1) :
    normalize_bbox (x0, y0, x1, y1) H true = ⟨x0, H - y1, x1, H - y0⟩ := by
  simp only [normalize_bbox]
  have h1 : ¬ (x0 > x1) := not_lt.mpr hx
  have h2 : ¬ (H - y1 > H - y0) := by
    simp only [not_lt]
    linarith
  simp [h1, h2]

/-- C3, counterexample.  Applying `normalize_bbox` twice with
`from_pdf_coords = true` to `(72, 700, 540, 750)` on a 792-point page
returns exactly the original coordinates: the double application IS a no-op
flip-back, contradicting the claim that it is not. -/
theorem c3_double_normalize_counterexample :
    normalize_bbox
        (BoundingBox.toTuple (normalize_bbox (72, 700, 540, 750) 792 true))
        792 true
      = ⟨72, 700, 540, 750⟩ := by
  have h1 : normalize_bbox (72, 700, 540, 750) 792 true
      = ⟨72, (42 : ℚ), 540, 92⟩ := by
    rw [normalize_bbox_of_sorted 72 700 540 750 792 (by norm_num) (by norm_num)]
    norm_num
  rw [h1]
  show normalize_bbox (72, 42, 540, 92) 792 true = _
  rw [normalize_bbox_of_sorted 72 42 540 92 792 (by norm_num) (by norm_num)]
  norm_num

/-- C3, amended.  `normalize_bbox` with `from_pdf_coords = true` maps the y
pair through `y := H - y` (the example box yields `y0 = 42`, `y1 = 92`), and
the conversion is an involution: a second application with
`from_pdf_coords = true` restores the original coordinates for every box
with ordered coordinate pairs.  The code contains no guard against double
application; callers must run the conversion exactly once. -/
theorem c3_normalize_bbox_amended :
    normalize_bbox (72, 700, 540, 750) 792 true = ⟨72, 42, 540, 92⟩ ∧
    ∀ x0 y0 x1 y1 H : ℚ, x0 ≤ x1 → y0 ≤ y1 →
      normalize_bbox (BoundingBox.toTuple (normalize_bbox (x0, y0, x1, y1) H true))
          H true = ⟨x0, y0, x1, y1⟩ := by
  constructor
  · rw [normalize_bbox_of_sorted 72 700 540 750 792 (by norm_num) (by norm_num)]
    norm_num
  · intro x0 y0 x1 y1 H hx hy
    rw [normalize_bbox_of_sorted x0 y0 x1 y1 H hx hy]
    show normalize_bbox (x0, H - y1, x1, H - y0) H true = _
    rw [normalize_bbox_of_sorted x0 (H - y1) x1 (H - y0) H hx (by linarith)]
    congr 1 <;> ring

/-- C3 witness: the amended involution instantiated on the example box. -/
theorem c3_normalize_bbox_amended_witness :
    normalize_bbox (BoundingBox.toTuple (normalize_bbox (72, 700, 540, 750) 792 true))
        792 true = ⟨72, 700, 540, 750⟩ :=
  c3_normalize_bbox_amended.2 72 700 540 750 792 (by norm_num) (by norm_num)

/-! ## text_utils.should_translate (src/app/backend/utils/text_utils.py) -/

/-- Tail of the numeric regex `^[-+]?\d+([.,]\d+)*[.]?$` after the leading
digit run: a sequence of `[.,]\d+` groups followed by an optional final dot.
The greedy deterministic scan agrees with the regex on every input because a
group always consumes a maximal digit run and a leftover character can never
be re-consumed by an earlier alternative. -/
def number_tail_fuel : Nat → List Char → Bool
  | 0, _ => false
  | _ + 1, [] => true
  | fuel + 1, c :: rest =>
    if c = '.' ∨ c = ',' then
      if (rest.takeWhile py_is_digit).isEmpty then
        decide (c = '.' ∧ rest = [])
      else number_tail_fuel fuel (rest.dropWhile py_is_digit)
    else false

/-- The optional leading `[-+]?` of the numeric regex. -/
def strip_sign : List Char → List Char
  | [] => []
  | c :: rest => if c = '-' ∨ c = '+' then rest else c :: rest

/-- Python `re.match(r'^[-+]?\d+([.,]\d+)*[.]?$', text)` as a Boolean. -/
def number_pattern_match (l : List Char) : Bool :=
  if ((strip_sign l).takeWhile py_is_digit).isEmpty then false
  else number_tail_fuel (l.length + 1) ((strip_sign l).dropWhile py_is_digit)

/-- `text_utils.should_translate`: skip empty or blank text, text whose
alphanumeric characters are all digits, numeric strings with punctuation,
text without letters, and text with fewer than 3 letters; translate the
rest.  The `source_lang` argument is kept for API compatibility and never
used. -/
def should_translate (text : String) (source_lang : String) : Bool :=
  if text = "" then false
  else if py_strip text = "" then false
  else if ((py_strip text).data.filter py_is_alnum).isEmpty then false
  else if ((py_strip text).data.filter py_is_alnum).all py_is_digit then false
  else if number_pattern_match (py_strip text).data then false
  else if ((py_strip text).data.filter py_is_alpha).isEmpty then false
  else if ((py_strip text).data.filter py_is_alpha).length < 3 then false
  else true

theorem py_is_alpha_not_digit {c : Char} (h : py_is_alpha c = true) :
    py_is_digit c = false := by
  simp only [py_is_alpha, decide_eq_true_eq] at h
  simp only [py_is_digit, decide_eq_false_iff_not, not_and]
  omega

theorem py_is_alpha_alnum {c : Char} (h : py_is_alpha c = true) :
    py_is_alnum c = true := by
  simp [py_is_alnum, h]

theorem py_is_digit_not_alpha {c : Char} (h : py_is_digit c = true) :
    py_is_alpha c = false := by
  simp only [py_is_digit, decide_eq_true_eq] at h
  simp only [py_is_alpha, decide_eq_false_iff_not, not_or, not_and]
  omega

theorem number_tail_fuel_no_alpha :
    ∀ fuel l, number_tail_fuel fuel l = true → ∀ c ∈ l, py_is_alpha c = false := by
  intro fuel
  induction fuel with
  | zero => intro l h; simp [number_tail_fuel] at h
  | succ n ih =>
    intro l h c hc
    cases l with
    | nil => cases hc
    | cons x rest =>
      simp only [number_tail_fuel] at h
      by_cases hsep : x = '.' ∨ x = ','
      · rw [if_pos hsep] at h
        by_cases hds : (rest.takeWhile py_is_digit).isEmpty
        · rw [if_pos hds, decide_eq_true_eq] at h
          rcases List.mem_cons.mp hc with hc | hc
          · subst hc
            rcases hsep with hx | hx <;> (subst hx; decide)
          · rw [h.2] at hc
            cases hc
        · rw [if_neg hds] at h
          rcases List.mem_cons.mp hc with hc | hc
          · subst hc
            rcases hsep with hx | hx <;> (subst hx; decide)
          · have hmem : c ∈ rest.takeWhile py_is_digit ∨
                c ∈ rest.dropWhile py_is_digit := by
              rw [← List.mem_append,
                List.takeWhile_append_dropWhile py_is_digit rest]
              exact hc
            rcases hmem with hm | hm
            · exact py_is_digit_not_alpha (List.mem_takeWhile_imp hm)
            · exact ih _ h c hm
      · rw [if_neg hsep] at h
        exact absurd h (by simp)

theorem number_pattern_no_alpha {l : List Char}
    (h : number_pattern_match l = true) : ∀ c ∈ l, py_is_alpha c = false := by
  intro c hc
  unfold number_pattern_match at h
  by_cases hds : (((strip_sign l).takeWhile py_is_digit).isEmpty : Bool)
  · rw [if_pos hds] at h
    exact absurd h (by simp)
  · rw [if_neg hds] at h
    have hstrip : ∀ d ∈ strip_sign l, py_is_alpha d = false := by
      intro d hd
      have hmem : d ∈ (strip_sign l).takeWhile py_is_digit ∨
          d ∈ (strip_sign l).dropWhile py_is_digit := by
        rw [← List.mem_append,
          List.takeWhile_append_dropWhile py_is_digit (strip_sign l)]
        exact hd
      rcases hmem with hm | hm
      · exact py_is_digit_not_alpha (List.mem_takeWhile_imp hm)
      · exact number_tail_fuel_no_alpha _ _ h d hm
    cases l with
    | nil => cases hc
    | cons x rest =>
      by_cases hsign : x = '-' ∨ x = '+'
      · rcases List.mem_cons.mp hc with hc | hc
        · subst hc
          rcases hsign with hx | hx <;> (subst hx; decide)
        · apply hstrip
          simp only [strip_sign, if_pos hsign]
          exact hc
      · apply hstrip
        simp only [strip_sign, if_neg hsign]
        exact hc

/-- C10.  `should_translate` rejects empty, blank, all-digit, numeric and
letter-poor text, accepts text with at least 3 ASCII letters, and ignores
its `source_lang` argument entirely: it returns `true` exactly when the
stripped text has at least 3 letters. -/
theorem c10_should_translate_spec :
    (should_translate "" "en" = false ∧
     should_translate "   " "en" = false ∧
     should_translate "5." "en" = false ∧
     should_translate "1.4" "en" = false ∧
     should_translate "-10" "en" = false ∧
     should_translate "3,900" "en" = false ∧
     should_translate "+)(" "en" = false ∧
     should_translate "ab" "fr" = false ∧
     should_translate "abc" "auto" = true) ∧
    (∀ text l1 l2, should_translate text l1 = should_translate text l2) ∧
    (∀ text lang, should_translate text lang = true ↔
      3 ≤ ((py_strip text).data.filter py_is_alpha).length) := by
  refine ⟨⟨by decide, by decide, by decide, by decide, by decide, by decide,
      by decide, by decide, by decide⟩, fun text l1 l2 => rfl, ?_⟩
  intro text lang
  constructor
  · intro h
    by_contra hlt
    rw [not_le] at hlt
    suffices hf : should_translate text lang = false by
      rw [h] at hf
      exact absurd hf (by simp)
    unfold should_translate
    split_ifs <;> rfl
  · intro hlen
    unfold should_translate
    split_ifs with h1 h2 h3 h4 h5 h6 h7
    · exfalso
      subst h1
      simp [py_strip, py_strip_list] at hlen
    · exfalso
      rw [h2] at hlen
      simp at hlen
    · exfalso
      rw [List.isEmpty_iff, List.filter_eq_nil_iff] at h3
      have hnil : ((py_strip text).data.filter py_is_alpha) = [] := by
        rw [List.filter_eq_nil_iff]
        intro a ha halpha
        exact h3 a ha (py_is_alpha_alnum halpha)
      rw [hnil] at hlen
      simp at hlen
    · exfalso
      have hne : ((py_strip text).data.filter py_is_alpha) ≠ [] := by
        intro hnil
        rw [hnil] at hlen
        simp at hlen
      obtain ⟨c, hc⟩ := List.exists_mem_of_ne_nil _ hne
      rw [List.mem_filter] at hc
      have hcd : py_is_digit c = true :=
        List.all_eq_true.mp h4 c (List.mem_filter.mpr ⟨hc.1, py_is_alpha_alnum hc.2⟩)
      rw [py_is_alpha_not_digit hc.2] at hcd
      exact Bool.false_ne_true hcd
    · exfalso
      have hnil : ((py_strip text).data.filter py_is_alpha) = [] := by
        rw [List.filter_eq_nil_iff]
        intro a ha halpha
        rw [number_pattern_no_alpha h5 a ha] at halpha
        exact Bool.false_ne_true halpha
      rw [hnil] at hlen
      simp at hlen
    · exfalso
      rw [List.isEmpty_iff] at h6
      rw [h6] at hlen
      simp at hlen
    · omega
    · rfl

/-! ## cache/translation_cache.py

The SQLite table `translations` becomes a list of entries; `CURRENT_TIMESTAMP`
becomes a strictly increasing logical clock (the real clock has second
granularity, which only coarsens tie-breaking among equally old entries).
`DELETE ... ORDER BY last_used_at ASC LIMIT r` becomes: stable-sort by
`last_used_at` and drop the first `r` rows; since the `(src, tgt, text)` key
is unique, row order is unobservable through `get`/`put`.
-/

/-- A row of the `translations` table. -/
structure CacheEntry where
  src : String
  tgt : String
  text : String
  result : String
  created_at : Nat
  last_used_at : Nat
deriving DecidableEq, Repr

/-- The configured constants `CACHE_MAX_ENTRIES` and `CACHE_CLEANUP_BATCH`
(defaults 50000 and 5000, both overridable through the environment). -/
structure CacheConfig where
  max_entries : Nat
  cleanup_batch : Nat
deriving DecidableEq, Repr

/-- The cache database state. -/
structure CacheState where
  entries : List CacheEntry
  clock : Nat
deriving DecidableEq, Repr

/-- A freshly created cache database. -/
def empty_cache : CacheState := ⟨[], 0⟩

/-- The composite unique key `(src, tgt, text)`. -/
def entry_key (e : CacheEntry) : String × String × String :=
  (e.src, e.tgt, e.text)

/-- `SELECT ... WHERE src=? AND tgt=? AND text=?`. -/
def cache_find (st : CacheState) (src tgt text : String) : Option CacheEntry :=
  st.entries.find? (fun e => decide (entry_key e = (src, tgt, text)))

/-- `TranslationCache.get`: return the cached result and touch
`last_used_at` on a hit; a miss leaves the state unchanged. -/
def TranslationCache.get (st : CacheState) (src tgt text : String) :
    Option String × CacheState :=
  match cache_find st src tgt text with
  | some e =>
    (some e.result,
     { entries := st.entries.map (fun x =>
         if entry_key x = (src, tgt, text) then
           { x with last_used_at := st.clock }
         else x),
       clock := st.clock + 1 })
  | none => (none, st)

/-- `TranslationCache._cleanup_if_needed`: when the entry count exceeds
`max_entries`, delete the
`min(cleanup_batch, count - max_entries + cleanup_batch)` entries with the
oldest `last_used_at`. -/
def cleanup_if_needed (cfg : CacheConfig) (st : CacheState) : CacheState :=
  if st.entries.length ≤ cfg.max_entries then st
  else
    let entries_to_remove :=
      min cfg.cleanup_batch (st.entries.length - cfg.max_entries + cfg.cleanup_batch)
    { st with entries :=
        (List.insertionSort (fun a b => a.last_used_at ≤ b.last_used_at)
          st.entries).drop entries_to_remove }

/-- `TranslationCache.put`: upsert under the unique key, then run the
eviction check. -/
def TranslationCache.put (cfg : CacheConfig) (st : CacheState)
    (src tgt text result : String) : CacheState :=
  let upserted : List CacheEntry :=
    match cache_find st src tgt text with
    | some _ =>
      st.entries.map (fun x =>
        if entry_key x = (src, tgt, text) then
          { x with result := result, last_used_at := st.clock }
        else x)
    | none => st.entries ++ [⟨src, tgt, text, result, st.clock, st.clock⟩]
  cleanup_if_needed cfg { entries := upserted, clock := st.clock + 1 }

theorem cache_find_none_iff {st : CacheState} {s t x : String} :
    cache_find st s t x = none ↔ ∀ e ∈ st.entries, entry_key e ≠ (s, t, x) := by
  unfold cache_find
  rw [List.find?_eq_none]
  constructor
  · intro h e he
    have := h e he
    simpa using this
  · intro h e he
    simpa using h e he

theorem mem_cleanup {cfg : CacheConfig} {st : CacheState} {e : CacheEntry}
    (h : e ∈ (cleanup_if_needed cfg st).entries) : e ∈ st.entries := by
  unfold cleanup_if_needed at h
  split at h
  · exact h
  · have h1 := List.mem_of_mem_drop h
    exact (List.perm_insertionSort
      (fun a b => a.last_used_at ≤ b.last_used_at) st.entries).mem_iff.mp h1

/-- An entry of the state after a `put` either comes from the old state with
its key unchanged, or carries the key just written. -/
theorem mem_put {cfg : CacheConfig} {st : CacheState} {s t x r : String}
    {e : CacheEntry} (h : e ∈ (TranslationCache.put cfg st s t x r).entries) :
    (∃ e0 ∈ st.entries, entry_key e = entry_key e0) ∨ entry_key e = (s, t, x) := by
  unfold TranslationCache.put at h
  have h1 := mem_cleanup h
  split at h1
  · rw [List.mem_map] at h1
    obtain ⟨e0, he0, heq⟩ := h1
    left
    refine ⟨e0, he0, ?_⟩
    subst heq
    split <;> rfl
  · rw [List.mem_append] at h1
    rcases h1 with h1 | h1
    · left
      exact ⟨e, h1, rfl⟩
    · right
      rw [List.mem_singleton] at h1
      subst h1
      rfl

/-- A missing key stays missing through a `put` under a different key. -/
theorem put_preserves_miss {cfg : CacheConfig} {st : CacheState}
    {s t x s' t' x' r : String} (hmiss : cache_find st s t x = none)
    (hne : (s', t', x') ≠ (s, t, x)) :
    cache_find (TranslationCache.put cfg st s' t' x' r) s t x = none := by
  rw [cache_find_none_iff] at hmiss ⊢
  intro e he
  rcases mem_put he with ⟨e0, he0, hk⟩ | hk
  · rw [hk]
    exact hmiss e0 he0
  · rw [hk]
    exact hne

/-- A miss leaves the state untouched, matching the absence of the
`UPDATE` statement on the miss path of `get`. -/
theorem get_miss_eq {st : CacheState} {s t x : String}
    (h : cache_find st s t x = none) :
    TranslationCache.get st s t x = (none, st) := by
  unfold TranslationCache.get
  rw [h]

/-- One `put` from a within-limit state lands within the limit again. -/
theorem put_length_le {cfg : CacheConfig} {st : CacheState}
    {s t x r : String} (hb : 1 ≤ cfg.cleanup_batch)
    (hst : st.entries.length ≤ cfg.max_entries) :
    (TranslationCache.put cfg st s t x r).entries.length ≤ cfg.max_entries := by
  unfold TranslationCache.put cleanup_if_needed
  have hup : ∀ upserted : List CacheEntry,
      upserted.length ≤ st.entries.length + 1 →
      (if upserted.length ≤ cfg.max_entries then
          ({ entries := upserted, clock := st.clock + 1 } : CacheState)
        else
          { entries := (List.insertionSort
              (fun a b => a.last_used_at ≤ b.last_used_at) upserted).drop
                (min cfg.cleanup_batch
                  (upserted.length - cfg.max_entries + cfg.cleanup_batch)),
            clock := st.clock + 1 }).entries.length ≤ cfg.max_entries := by
    intro upserted hlen
    split
    · rename_i hle
      exact hle
    · rename_i hgt
      rw [not_le] at hgt
      simp only [List.length_drop,
        (List.perm_insertionSort (fun a b => a.last_used_at ≤ b.last_used_at)
          upserted).length_eq]
      omega
  split
  · exact hup _ (by simp only [List.length_map]; omega)
  · exact hup _ (by simp only [List.length_append, List.length_cons,
      List.length_nil]; omega)

/-- C5, counterexample.  With `max_entries = 1` and `cleanup_batch = 2`,
inserting two distinct entries into an empty cache leaves the cache with 0
entries: the pass deleted 2 entries although deleting 1 would already have
returned the count to the limit, so the delete is not clamped to what is
needed (`min(batch, count - max + batch)` equals the full batch whenever the
count exceeds the limit). -/
theorem c5_eviction_counterexample :
    (TranslationCache.put ⟨1, 2⟩
        (TranslationCache.put ⟨1, 2⟩ empty_cache "auto" "fr" "a" "ra")
        "auto" "fr" "b" "rb").entries.length = 0 ∧
    (2 : Nat) - 1 = 1 ∧ (0 : Nat) ≠ 1 := by
  refine ⟨?_, rfl, by decide⟩
  decide

/-- C5, amended.  After every `put` that pushes the count past
`max_entries`, the eviction pass deletes
`min(cleanup_batch, count - max_entries + cleanup_batch)` oldest-used
entries — always the full `cleanup_batch`, which can exceed the minimum
needed to return under the limit.  Starting from any state within the limit
(such as an empty cache), the entry count still never exceeds `max_entries`
after any sequence of `put`s, provided `cleanup_batch ≥ 1`. -/
theorem c5_eviction_amended (cfg : CacheConfig) (hb : 1 ≤ cfg.cleanup_batch) :
    (∀ st : CacheState, cfg.max_entries < st.entries.length →
      (cleanup_if_needed cfg st).entries.length =
        st.entries.length - cfg.cleanup_batch) ∧
    (∀ (ops : List (String × String × String × String)) (st : CacheState),
      st.entries.length ≤ cfg.max_entries →
      (ops.foldl (fun acc o =>
          TranslationCache.put cfg acc o.1 o.2.1 o.2.2.1 o.2.2.2)
        st).entries.length ≤ cfg.max_entries) := by
  constructor
  · intro st hgt
    unfold cleanup_if_needed
    rw [if_neg (not_le.mpr hgt)]
    simp only [List.length_drop,
      (List.perm_insertionSort (fun a b => a.last_used_at ≤ b.last_used_at)
        st.entries).length_eq]
    omega
  · intro ops
    induction ops with
    | nil => intro st h; exact h
    | cons o rest ih =>
      intro st h
      exact ih _ (put_length_le hb h)

/-- C5 witness: the amended bound instantiated on a concrete configuration
and a concrete sequence of five inserts into an empty cache. -/
theorem c5_eviction_amended_witness :
    ([("auto", "fr", "a", "ra"), ("auto", "fr", "b", "rb"),
      ("auto", "fr", "c", "rc"), ("auto", "fr", "d", "rd"),
      ("auto", "fr", "e", "re")].foldl
        (fun acc o => TranslationCache.put ⟨2, 1⟩ acc o.1 o.2.1 o.2.2.1 o.2.2.2)
      empty_cache).entries.length ≤ 2 :=
  (c5_eviction_amended ⟨2, 1⟩ (by decide)).2 _ empty_cache (by decide)

/-! ## Reading order

`bbox_utils.sort_bboxes_by_reading_order` and
`TranslatableDocument.get_elements_in_reading_order`
(src/app/backend/models/translatable_document.py).  Python `list.sort` and
`sorted` are stable sorts by key; `List.insertionSort` with a reflexive
total relation on keys is the canonical stable sort, so it is the faithful
embedding of both.
-/

/-- Lexicographic comparison of the Python key tuple
`(y_rounded, x0) : (int, float)`. -/
def pair_le (p q : ℤ × ℚ) : Prop :=
  p.1 < q.1 ∨ (p.1 = q.1 ∧ p.2 ≤ q.2)

instance : DecidableRel pair_le := fun p q => by
  unfold pair_le
  infer_instance

/-- The key `(round(y0 / 10) * 10, x0)` computed by
`sort_bboxes_by_reading_order`. -/
def bbox_key (b : BoundingBox) : ℤ × ℚ :=
  (py_round (b.y0 / 10) * 10, b.x0)

/-- Order on enumerated boxes induced by the key. -/
def bbox_order (a b : Nat × BoundingBox) : Prop :=
  pair_le (bbox_key a.2) (bbox_key b.2)

instance : DecidableRel bbox_order := fun a b => by
  unfold bbox_order
  infer_instance

instance : IsTotal (Nat × BoundingBox) bbox_order := by
  constructor
  intro a b
  unfold bbox_order pair_le
  rcases lt_trichotomy (bbox_key a.2).1 (bbox_key b.2).1 with h | h | h
  · exact Or.inl (Or.inl h)
  · rcases le_total (bbox_key a.2).2 (bbox_key b.2).2 with h2 | h2
    · exact Or.inl (Or.inr ⟨h, h2⟩)
    · exact Or.inr (Or.inr ⟨h.symm, h2⟩)
  · exact Or.inr (Or.inl h)

instance : IsTrans (Nat × BoundingBox) bbox_order := by
  constructor
  intro a b c hab hbc
  unfold bbox_order pair_le at *
  rcases hab with h1 | ⟨h1, h1'⟩ <;> rcases hbc with h2 | ⟨h2, h2'⟩
  · exact Or.inl (h1.trans h2)
  · exact Or.inl (h2 ▸ h1)
  · exact Or.inl (h1 ▸ h2)
  · exact Or.inr ⟨h1.trans h2, h1'.trans h2'⟩

/-- `bbox_utils.sort_bboxes_by_reading_order`: stable sort of the
enumerated boxes by `(round(y0 / 10) * 10, x0)`, returning indices. -/
def sort_bboxes_by_reading_order (bboxes : List BoundingBox) : List Nat :=
  if bboxes.isEmpty then []
  else (List.insertionSort bbox_order bboxes.enum).map Prod.fst

/-- `models/translatable_document.py` `TranslatableElement`, restricted to
the fields the checked claims read (identity, element type, style and
metadata play no role in them). -/
structure TranslatableElement where
  content : String
  page_num : Nat
  bbox : Option BoundingBox
  should_translate : Bool
deriving DecidableEq, Repr

/-- Lexicographic comparison of `(page_num, y0, x0) : (int, float, float)`. -/
def trip_le (p q : Nat × ℚ × ℚ) : Prop :=
  p.1 < q.1 ∨ (p.1 = q.1 ∧
    (p.2.1 < q.2.1 ∨ (p.2.1 = q.2.1 ∧ p.2.2 ≤ q.2.2)))

instance : DecidableRel trip_le := fun p q => by
  unfold trip_le
  infer_instance

/-- The sort key of `get_elements_in_reading_order`: `(page_num, y0, x0)`
when the element has a box, `(page_num, 0, 0)` otherwise.  Note the raw
`y0` with no rounding. -/
def elem_sort_key (e : TranslatableElement) : Nat × ℚ × ℚ :=
  match e.bbox with
  | some b => (e.page_num, b.y0, b.x0)
  | none => (e.page_num, 0, 0)

/-- Element order induced by `elem_sort_key`. -/
def elem_order (a b : TranslatableElement) : Prop :=
  trip_le (elem_sort_key a) (elem_sort_key b)

instance : DecidableRel elem_order := fun a b => by
  unfold elem_order
  infer_instance

/-- `TranslatableDocument.get_elements_in_reading_order` on the element
list of the document. -/
def get_elements_in_reading_order (elements : List TranslatableElement) :
    List TranslatableElement :=
  List.insertionSort elem_order elements

/-- The reading-order key asserted by the spec, written from the words of
the spec for comparison with the code: `(pageNum, round(y0/10)*10, x0)`. -/
def spec_elem_key (e : TranslatableElement) : Nat × ℤ × ℚ :=
  match e.bbox with
  | some b => (e.page_num, py_round (b.y0 / 10) * 10, b.x0)
  | none => (e.page_num, 0, 0)

/-- Element order the spec asserts, from `spec_elem_key`. -/
def spec_elem_order (a b : TranslatableElement) : Prop :=
  (spec_elem_key a).1 < (spec_elem_key b).1 ∨
  ((spec_elem_key a).1 = (spec_elem_key b).1 ∧
    pair_le (spec_elem_key a).2 (spec_elem_key b).2)

instance : DecidableRel spec_elem_order := fun a b => by
  unfold spec_elem_order
  infer_instance

theorem py_round_eq_of_ge_of_lt_half {q : ℚ} {n : ℤ} (h1 : (n : ℚ) ≤ q)
    (h2 : q - n < 1 / 2) : py_round q = n := by
  have hfl : ⌊q⌋ = n := by
    rw [Int.floor_eq_iff]
    constructor
    · exact h1
    · push_cast
      linarith
  unfold py_round
  rw [hfl, if_pos h2]

/-- First element of the C8 counterexample: x0 = 1, y0 = 104. -/
def c8_elem_a : TranslatableElement := ⟨"A", 1, some ⟨1, 104, 10, 110⟩, true⟩

/-- Second element of the C8 counterexample: x0 = 5, y0 = 101. -/
def c8_elem_b : TranslatableElement := ⟨"B", 1, some ⟨5, 101, 20, 109⟩, true⟩

/-- C8, counterexample.  Two same-page elements at y0 = 104 (x0 = 1) and
y0 = 101 (x0 = 5): `get_elements_in_reading_order` sorts by raw `y0` and
yields B before A, while the key the spec asserts,
`(pageNum, round(y0/10)*10, x0)`, buckets both to y = 100 and yields A
before B — so elements are not sorted by the claimed key. -/
theorem c8_reading_order_counterexample :
    (get_elements_in_reading_order [c8_elem_a, c8_elem_b]).map
        TranslatableElement.content = ["B", "A"] ∧
    (List.insertionSort spec_elem_order [c8_elem_a, c8_elem_b]).map
        TranslatableElement.content = ["A", "B"] ∧
    (["B", "A"] : List String) ≠ ["A", "B"] := by
  have hra : py_round ((104 : ℚ) / 10) = 10 :=
    py_round_eq_of_ge_of_lt_half (by norm_num) (by norm_num)
  have hrb : py_round ((101 : ℚ) / 10) = 10 :=
    py_round_eq_of_ge_of_lt_half (by norm_num) (by norm_num)
  refine ⟨?_, ?_, by decide⟩
  · have hno : ¬ elem_order c8_elem_a c8_elem_b := by
      unfold elem_order c8_elem_a c8_elem_b elem_sort_key trip_le
      norm_num
    rw [get_elements_in_reading_order]
    simp [List.insertionSort, List.orderedInsert, hno]
    exact ⟨rfl, rfl⟩
  · have hyes : spec_elem_order c8_elem_a c8_elem_b := by
      unfold spec_elem_order c8_elem_a c8_elem_b spec_elem_key pair_le
      simp only [hra, hrb]
      norm_num
    simp [List.insertionSort, List.orderedInsert, hyes]
    exact ⟨rfl, rfl⟩

/-- C8, amended.  `sort_bboxes_by_reading_order` returns a permutation of
the box indices that is sorted by the rounded key
`(round(y0/10)*10, x0)` (with no page component — it sorts bare boxes),
while `get_elements_in_reading_order` sorts elements by
`(page_num, y0, x0)` with the raw unrounded `y0`.  On the spec example —
three boxes at y0 = 300, 100, 200 with identical x — both produce reading
order `[1, 2, 0]`. -/
theorem c8_reading_order_amended :
    (∀ bboxes : List BoundingBox,
      List.Perm (sort_bboxes_by_reading_order bboxes)
        (List.range bboxes.length) ∧
      (sort_bboxes_by_reading_order bboxes).Pairwise (fun i j =>
        pair_le (bbox_key (bboxes.getD i ⟨0, 0, 0, 0⟩))
          (bbox_key (bboxes.getD j ⟨0, 0, 0, 0⟩)))) ∧
    sort_bboxes_by_reading_order
      [⟨72, 300, 540, 320⟩, ⟨72, 100, 540, 120⟩, ⟨72, 200, 540, 220⟩]
      = [1, 2, 0] ∧
    (get_elements_in_reading_order
        [⟨"P", 1, some ⟨72, 300, 540, 320⟩, true⟩,
         ⟨"Q", 1, some ⟨72, 100, 540, 120⟩, true⟩,
         ⟨"R", 1, some ⟨72, 200, 540, 220⟩, true⟩]).map
        TranslatableElement.content = ["Q", "R", "P"] := by
  refine ⟨?_, ?_, ?_⟩
  · intro bboxes
    by_cases hemp : bboxes.isEmpty
    · rw [List.isEmpty_iff] at hemp
      subst hemp
      constructor
      · simp [sort_bboxes_by_reading_order]
      · simp [sort_bboxes_by_reading_order]
    · have hrw : sort_bboxes_by_reading_order bboxes
          = (List.insertionSort bbox_order bboxes.enum).map Prod.fst := by
        unfold sort_bboxes_by_reading_order
        rw [if_neg hemp]
      constructor
      · rw [hrw]
        have hperm := (List.perm_insertionSort bbox_order bboxes.enum).map
          Prod.fst
        rw [List.enum_map_fst] at hperm
        exact hperm
      · rw [hrw]
        have hsorted : (List.insertionSort bbox_order bboxes.enum).Pairwise
            bbox_order :=
          List.sorted_insertionSort bbox_order bboxes.enum
        have hstrong : (List.insertionSort bbox_order bboxes.enum).Pairwise
            (fun p q => pair_le (bbox_key (bboxes.getD p.1 ⟨0, 0, 0, 0⟩))
              (bbox_key (bboxes.getD q.1 ⟨0, 0, 0, 0⟩))) := by
          refine List.Pairwise.imp_of_mem ?_ hsorted
          intro p q hp hq hpq
          have hp2 : p ∈ bboxes.enum :=
            (List.perm_insertionSort bbox_order bboxes.enum).subset hp
          have hq2 : q ∈ bboxes.enum :=
            (List.perm_insertionSort bbox_order bboxes.enum).subset hq
          have hpe := List.mem_enum_iff_getElem?.mp hp2
          have hqe := List.mem_enum_iff_getElem?.mp hq2
          have hpd : bboxes.getD p.1 ⟨0, 0, 0, 0⟩ = p.2 := by
            simp [List.getD_eq_getElem?_getD, hpe]
          have hqd : bboxes.getD q.1 ⟨0, 0, 0, 0⟩ = q.2 := by
            simp [List.getD_eq_getElem?_getD, hqe]
          rw [hpd, hqd]
          exact hpq
        rw [List.pairwise_map]
        exact hstrong
  · have h30 : py_round ((300 : ℚ) / 10) = 30 :=
      py_round_eq_of_ge_of_lt_half (by norm_num) (by norm_num)
    have h10 : py_round ((100 : ℚ) / 10) = 10 :=
      py_round_eq_of_ge_of_lt_half (by norm_num) (by norm_num)
    have h20 : py_round ((200 : ℚ) / 10) = 20 :=
      py_round_eq_of_ge_of_lt_half (by norm_num) (by norm_num)
    have hbc : bbox_order (1, ⟨72, 100, 540, 120⟩) (2, ⟨72, 200, 540, 220⟩) := by
      unfold bbox_order bbox_key pair_le
      simp only [h10, h20]
      norm_num
    have hab : ¬ bbox_order (0, ⟨72, 300, 540, 320⟩) (1, ⟨72, 100, 540, 120⟩) := by
      unfold bbox_order bbox_key pair_le
      simp only [h30, h10]
      norm_num
    have hac : ¬ bbox_order (0, ⟨72, 300, 540, 320⟩) (2, ⟨72, 200, 540, 220⟩) := by
      unfold bbox_order bbox_key pair_le
      simp only [h30, h20]
      norm_num
    unfold sort_bboxes_by_reading_order
    rw [if_neg (by decide)]
    show (List.insertionSort bbox_order
      [(0, ⟨72, 300, 540, 320⟩), (1, ⟨72, 100, 540, 120⟩),
       (2, ⟨72, 200, 540, 220⟩)]).map Prod.fst = [1, 2, 0]
    simp [List.insertionSort, List.orderedInsert, hbc, hab, hac]
  · have hqr : elem_order ⟨"Q", 1, some ⟨72, 100, 540, 120⟩, true⟩
        ⟨"R", 1, some ⟨72, 200, 540, 220⟩, true⟩ := by
      unfold elem_order elem_sort_key trip_le
      norm_num
    have hpq : ¬ elem_order ⟨"P", 1, some ⟨72, 300, 540, 320⟩, true⟩
        ⟨"Q", 1, some ⟨72, 100, 540, 120⟩, true⟩ := by
      unfold elem_order elem_sort_key trip_le
      norm_num
    have hpr : ¬ elem_order ⟨"P", 1, some ⟨72, 300, 540, 320⟩, true⟩
        ⟨"R", 1, some ⟨72, 200, 540, 220⟩, true⟩ := by
      unfold elem_order elem_sort_key trip_le
      norm_num
    rw [get_elements_in_reading_order]
    simp [List.insertionSort, List.orderedInsert, hqr, hpq, hpr]

/-! ## font_utils.fit_text_to_bbox (src/app/backend/utils/font_utils.py)

`calculate_text_width` defers to reportlab font metrics (an external
collaborator), so the width function is an abstract parameter
`sw : String → ℚ → ℚ`.  The shrink loop is embedded with explicit fuel; the
termination theorem exhibits a fuel that makes the loop return, which is
exactly the claim that the loop ends after a bounded number of shrink
iterations.
-/

/-- Configured minimum font size `MIN_FONT_SIZE_PT` (config.py). -/
def MIN_FONT_SIZE_PT : ℚ := 6

/-- Configured maximum font size `MAX_FONT_SIZE_PT` (config.py). -/
def MAX_FONT_SIZE_PT : ℚ := 72

/-- Configured shrink factor `FONT_SIZE_SHRINK_FACTOR = 0.9` (config.py). -/
def FONT_SIZE_SHRINK_FACTOR : ℚ := 9 / 10

/-- `font_utils.calculate_text_height`: line height is 1.2 times the font
size (the font name argument is unused in the source). -/
def calculate_text_height (font_size : ℚ) : ℚ :=
  font_size * (6 / 5)

/-- Python `max(...)` over a nonempty list (the `0` default is never used:
`str.split` always returns at least one piece). -/
def py_max_list : List ℚ → ℚ
  | [] => 0
  | x :: xs => xs.foldl max x

/-- `font_utils.estimate_font_size_from_bbox`. -/
def estimate_font_size_from_bbox (bbox_height : ℚ) (line_count : Nat) : ℚ :=
  max MIN_FONT_SIZE_PT
    (min MAX_FONT_SIZE_PT ((bbox_height / line_count) * (17 / 20) / (6 / 5)))

/-- The fit test of one loop iteration of `fit_text_to_bbox`: widest line
fits the box width and the stacked line heights fit the box height. -/
def fits_at (sw : String → ℚ → ℚ) (text : String) (bbox_width bbox_height : ℚ)
    (font_size : ℚ) : Bool :=
  let lines := py_split text "\n"
  decide (py_max_list (lines.map (fun l => sw l font_size)) ≤ bbox_width ∧
    calculate_text_height font_size * lines.length ≤ bbox_height)

/-- The `while font_size >= min_font_size` shrink loop of
`fit_text_to_bbox`, followed by the final `max(font_size, min_font_size)`
clamp; `none` means the fuel ran out before the loop ended. -/
def fit_loop (sw : String → ℚ → ℚ) (text : String)
    (bbox_width bbox_height min_font_size shrink_factor : ℚ) :
    Nat → ℚ → Option (ℚ × Bool)
  | 0, _ => none
  | fuel + 1, font_size =>
    if font_size < min_font_size then
      some (max font_size min_font_size, false)
    else if fits_at sw text bbox_width bbox_height font_size then
      some (max font_size min_font_size, true)
    else
      fit_loop sw text bbox_width bbox_height min_font_size shrink_factor
        fuel (font_size * shrink_factor)

/-- `font_utils.fit_text_to_bbox`: start from the given initial size, or
from the bbox-based estimate when none is given, then run the shrink loop. -/
def fit_text_to_bbox (sw : String → ℚ → ℚ) (text : String)
    (bbox_width bbox_height : ℚ) (initial_font_size : Option ℚ)
    (min_font_size shrink_factor : ℚ) (fuel : Nat) : Option (ℚ × Bool) :=
  let s0 := match initial_font_size with
    | some s => s
    | none =>
      estimate_font_size_from_bbox bbox_height
        ((text.data.filter (fun c => c = '\n')).length + 1)
  fit_loop sw text bbox_width bbox_height min_font_size shrink_factor fuel s0

theorem fit_loop_done (sw : String → ℚ → ℚ) (text : String)
    (w h minf σ : ℚ) :
    ∀ (n : Nat) (s : ℚ), s * σ ^ n < minf →
      ∃ r, fit_loop sw text w h minf σ (n + 1) s = some r ∧ minf ≤ r.1 := by
  intro n
  induction n with
  | zero =>
    intro s hs
    rw [pow_zero, mul_one] at hs
    refine ⟨(max s minf, false), ?_, le_max_right _ _⟩
    simp only [fit_loop]
    rw [if_pos hs]
  | succ n ih =>
    intro s hs
    by_cases h1 : s < minf
    · refine ⟨(max s minf, false), ?_, le_max_right _ _⟩
      simp only [fit_loop]
      rw [if_pos h1]
    · by_cases h2 : fits_at sw text w h s
      · refine ⟨(max s minf, true), ?_, le_max_right _ _⟩
        simp only [fit_loop]
        rw [if_neg h1, if_pos h2]
      · have hnext : (s * σ) * σ ^ n < minf := by
          calc (s * σ) * σ ^ n = s * σ ^ (n + 1) := by ring
          _ < minf := hs
        obtain ⟨r, hr, hmin⟩ := ih (s * σ) hnext
        refine ⟨r, ?_, hmin⟩
        simp only [fit_loop]
        rw [if_neg h1, if_neg h2]
        exact hr

/-- C9.  For every text, box, abstract font-metric function, initial size
and configured bounds with `0 < min_font_size` and a shrink factor in
`[0, 1)` — all configured values satisfy this — the shrink loop of
`fit_text_to_bbox` terminates within some bounded number of iterations, and
the returned font size is never below the configured minimum. -/
theorem c9_fit_text_to_bbox_terminates (sw : String → ℚ → ℚ) (text : String)
    (bbox_width bbox_height : ℚ) (initial_font_size : Option ℚ)
    (min_font_size shrink_factor : ℚ) (hmin : 0 < min_font_size)
    (hs0 : 0 ≤ shrink_factor) (hs1 : shrink_factor < 1) :
    ∃ fuel r,
      fit_text_to_bbox sw text bbox_width bbox_height initial_font_size
        min_font_size shrink_factor fuel = some r ∧ min_font_size ≤ r.1 := by
  unfold fit_text_to_bbox
  set s0 : ℚ := match initial_font_size with
    | some s => s
    | none =>
      estimate_font_size_from_bbox bbox_height
        ((text.data.filter (fun c => c = '\n')).length + 1)
  suffices hloop : ∃ n, s0 * shrink_factor ^ n < min_font_size by
    obtain ⟨n, hn⟩ := hloop
    obtain ⟨r, hr, hle⟩ :=
      fit_loop_done sw text bbox_width bbox_height min_font_size
        shrink_factor n s0 hn
    exact ⟨n + 1, r, hr, hle⟩
  by_cases hpos : 0 < s0
  · obtain ⟨n, hn⟩ :=
      exists_pow_lt_of_lt_one (div_pos hmin hpos) hs1
    refine ⟨n, ?_⟩
    rw [lt_div_iff hpos] at hn
    linarith [hn]
  · refine ⟨0, ?_⟩
    rw [pow_zero, mul_one]
    rw [not_lt] at hpos
    linarith

/-- C9 witness: termination and the minimum-size bound instantiated with a
linear width function, a two-line text and the configured defaults. -/
theorem c9_fit_text_to_bbox_terminates_witness :
    ∃ fuel r,
      fit_text_to_bbox (fun s q => q * s.length) "Hello\nWorld" 100 20 none
        MIN_FONT_SIZE_PT FONT_SIZE_SHRINK_FACTOR fuel = some r ∧
      MIN_FONT_SIZE_PT ≤ r.1 :=
  c9_fit_text_to_bbox_terminates (fun s q => q * s.length) "Hello\nWorld"
    100 20 none MIN_FONT_SIZE_PT FONT_SIZE_SHRINK_FACTOR
    (by norm_num [MIN_FONT_SIZE_PT]) (by norm_num [FONT_SIZE_SHRINK_FACTOR])
    (by norm_num [FONT_SIZE_SHRINK_FACTOR])

/-! ## clients/ollama_client.py : smart retry

`_smart_retry`, `_translate_chunked` and `_translate_with_extended_retry`.
The HTTP POST to the model server is an abstract oracle
`post : Nat → String → Option String` indexed by the number of the call
within the routine; `some` is an HTTP 200 response body, `none` a failure
(in the source, the error string carries the HTTP code or exception text —
here it is folded into one constant message, which none of the claims
read).  `mk_prompt` stands for `_build_generic_prompt` or
`_build_translategemma_prompt` with model, target and source fixed.
-/

/-- The context/length/memory keyword list of `_smart_retry`. -/
def context_keywords : List String :=
  ["context", "length", "memory", "too long", "exceeded"]

/-- The timeout/busy/connection keyword list of `_smart_retry`. -/
def timeout_keywords : List String :=
  ["timeout", "busy", "connection", "reset", "refused"]

/-- `any(kw in error_lower for kw in kws)`. -/
def contains_any (msg : String) (kws : List String) : Bool :=
  kws.any (fun kw => py_contains msg kw)

/-- The sentence-ending characters of the chunking regex
`(?<=[.!?。！？])\s+`. -/
def sentence_enders : List Char := ['.', '!', '?', '。', '！', '？']

/-- `re.split(r'(?<=[.!?。！？])\s+', text)`: split at every maximal
whitespace run that directly follows a sentence ender. -/
def split_sentences_regex_aux : List Char → List Char → List (List Char)
  | [], buf => [buf.reverse]
  | c :: rest, buf =>
    if py_is_space c &&
        (match buf with
         | p :: _ => decide (p ∈ sentence_enders)
         | [] => false) then
      buf.reverse :: split_sentences_regex_aux (rest.dropWhile py_is_space) []
    else
      split_sentences_regex_aux rest (c :: buf)
termination_by l _ => l.length
decreasing_by
  · have h : (rest.dropWhile py_is_space).length ≤ rest.length :=
      List.Sublist.length_le (List.dropWhile_sublist _)
    simp only [List.length_cons]
    omega
  · simp only [List.length_cons]
    omega

/-- String wrapper for the sentence-splitting regex. -/
def split_sentences_regex (text : String) : List String :=
  (split_sentences_regex_aux text.data []).map String.mk

/-- `for i in range(0, len(chunk), max_chunk_chars): chunk[i:i+max_chunk_chars]`:
hard character-limit slices of an over-long chunk. -/
def chunk_slices (maxc : Nat) : List Char → List String
  | [] => []
  | c :: rest =>
    String.mk ((c :: rest).take maxc) :: chunk_slices maxc (rest.drop (maxc - 1))
termination_by l => l.length
decreasing_by
  simp only [List.length_drop, List.length_cons]
  omega

/-- The pure splitting stage of `_translate_chunked`: paragraphs on a
double newline, otherwise lines, otherwise regex sentences, each stripped
and blank pieces discarded, then over-long chunks hard-sliced.  Returns the
final chunk list together with the joiner used to reassemble. -/
def translate_chunked_parts (text : String) (max_chunk_chars : Nat) :
    List String × String :=
  let pair : List String × String :=
    if py_contains text "\n\n" then
      (((py_split text "\n\n").map py_strip).filter (fun c => c ≠ ""), "\n\n")
    else if py_contains text "\n" then
      (((py_split text "\n").map py_strip).filter (fun c => c ≠ ""), "\n")
    else
      (((split_sentences_regex text).map py_strip).filter (fun c => c ≠ ""), " ")
  ((pair.1.map (fun c =>
      if c.length ≤ max_chunk_chars then [c]
      else chunk_slices max_chunk_chars c.data)).flatten,
   pair.2)

/-- The per-chunk POST loop of `_translate_chunked`: one call per chunk in
order, stripping each response; the first failure aborts the whole call. -/
def run_chunks (post : Nat → String → Option String)
    (mk_prompt : String → String) :
    List String → Nat → List String → Option (List String)
  | [], _, acc => some acc.reverse
  | c :: rest, i, acc =>
    match post i (mk_prompt c) with
    | some resp => run_chunks post mk_prompt rest (i + 1) (py_strip resp :: acc)
    | none => none

/-- `OllamaClient._translate_chunked`. -/
def translate_chunked (post : Nat → String → Option String)
    (mk_prompt : String → String) (text : String) (max_chunk_chars : Nat) :
    Bool × String :=
  let parts := translate_chunked_parts text max_chunk_chars
  if parts.1.isEmpty then
    (false, "[Chunked translation failed: no valid chunks]")
  else
    match run_chunks post mk_prompt parts.1 0 [] with
    | some translated => (true, py_join parts.2 translated)
    | none => (false, "[Chunk translation failed]")

/-- The fixed increasing waits of `_translate_with_extended_retry`. -/
def extended_retry_waits : List Nat := [5, 10, 20]

/-- The retry loop of `_translate_with_extended_retry`: sleep the next
wait, POST once, stop on success; also returns the waits performed. -/
def extended_retry_go (post : Nat → String → Option String) (prompt : String) :
    List Nat → Nat → (Bool × String) × List Nat
  | [], _ => ((false, "[Extended retry failed after multiple attempts]"), [])
  | w :: rest, i =>
    match post i prompt with
    | some resp => ((true, py_strip resp), [w])
    | none =>
      let next := extended_retry_go post prompt rest (i + 1)
      (next.1, w :: next.2)

/-- `OllamaClient._translate_with_extended_retry`. -/
def translate_with_extended_retry (post : Nat → String → Option String)
    (prompt : String) : (Bool × String) × List Nat :=
  extended_retry_go post prompt extended_retry_waits 0

/-- `OllamaClient._smart_retry`: classify the lowercased error message by
keyword; context-like errors go to chunked translation, transient-like
errors to the extended retry, anything else is surfaced verbatim. -/
def smart_retry (post : Nat → String → Option String)
    (mk_prompt : String → String) (text : String) (error_msg : String) :
    Bool × String :=
  if contains_any (py_lower error_msg) context_keywords then
    translate_chunked post mk_prompt text 1500
  else if contains_any (py_lower error_msg) timeout_keywords then
    (translate_with_extended_retry post (mk_prompt text)).1
  else
    (false, error_msg)

theorem chunk_slices_length_le (maxc : Nat) :
    ∀ l : List Char, ∀ s ∈ chunk_slices maxc l, s.length ≤ maxc := by
  intro l
  induction l using chunk_slices.induct maxc with
  | case1 =>
    intro s hs
    rw [chunk_slices] at hs
    cases hs
  | case2 c rest ih =>
    intro s hs
    rw [chunk_slices] at hs
    rcases List.mem_cons.mp hs with hs | hs
    · subst hs
      show ((c :: rest).take maxc).length ≤ maxc
      rw [List.length_take]
      exact min_le_left _ _
    · exact ih s hs

theorem run_chunks_success (post : Nat → String → Option String)
    (mk_prompt : String → String) (F : String → String)
    (hpost : ∀ i p, post i p = some (F p)) :
    ∀ (cs : List String) (i : Nat) (acc : List String),
      run_chunks post mk_prompt cs i acc =
        some (acc.reverse ++ cs.map (fun c => py_strip (F (mk_prompt c)))) := by
  intro cs
  induction cs with
  | nil => intro i acc; simp [run_chunks]
  | cons c rest ih =>
    intro i acc
    rw [run_chunks, hpost]
    show run_chunks post mk_prompt rest (i + 1)
      (py_strip (F (mk_prompt c)) :: acc) = _
    rw [ih (i + 1) (py_strip (F (mk_prompt c)) :: acc)]
    simp

/-- C6.  `_smart_retry` classifies the error message by keyword: a
context/length/memory keyword routes to chunked translation, where the text
is split into paragraph, line or sentence units, hard-sliced to at most
1500 characters each, translated independently and rejoined with the
original separator; a timeout/connection/busy keyword routes to the
extended retry, which waits the fixed increasing 5, 10 and 20 seconds
before giving up when every attempt fails; any other error is surfaced
verbatim with no further call. -/
theorem c6_smart_retry_spec (post : Nat → String → Option String)
    (mk_prompt : String → String) (text error_msg : String) :
    (contains_any (py_lower error_msg) context_keywords = true →
      smart_retry post mk_prompt text error_msg =
        translate_chunked post mk_prompt text 1500) ∧
    (∀ c ∈ (translate_chunked_parts text 1500).1, c.length ≤ 1500) ∧
    (∀ F : String → String, (∀ i p, post i p = some (F p)) →
      (translate_chunked_parts text 1500).1 ≠ [] →
      translate_chunked post mk_prompt text 1500 =
        (true, py_join (translate_chunked_parts text 1500).2
          ((translate_chunked_parts text 1500).1.map
            (fun c => py_strip (F (mk_prompt c)))))) ∧
    (contains_any (py_lower error_msg) context_keywords = false →
      contains_any (py_lower error_msg) timeout_keywords = true →
      smart_retry post mk_prompt text error_msg =
        (translate_with_extended_retry post (mk_prompt text)).1 ∧
      ((∀ i, post i (mk_prompt text) = none) →
        translate_with_extended_retry post (mk_prompt text) =
          ((false, "[Extended retry failed after multiple attempts]"),
            [5, 10, 20]))) ∧
    (contains_any (py_lower error_msg) context_keywords = false →
      contains_any (py_lower error_msg) timeout_keywords = false →
      smart_retry post mk_prompt text error_msg = (false, error_msg)) := by
  refine ⟨?_, ?_, ?_, ?_, ?_⟩
  · intro h
    unfold smart_retry
    rw [if_pos h]
  · intro c hc
    unfold translate_chunked_parts at hc
    rw [List.mem_flatten] at hc
    obtain ⟨s, hs, hcs⟩ := hc
    rw [List.mem_map] at hs
    obtain ⟨c0, _, hc0⟩ := hs
    by_cases hlen : c0.length ≤ 1500
    · rw [← hc0, if_pos hlen] at hcs
      rw [List.mem_singleton] at hcs
      subst hcs
      exact hlen
    · rw [← hc0, if_neg hlen] at hcs
      exact chunk_slices_length_le 1500 c0.data c hcs
  · intro F hpost hne
    unfold translate_chunked
    rw [if_neg (by rw [List.isEmpty_iff]; exact hne)]
    rw [run_chunks_success post mk_prompt F hpost]
    simp
  · intro h1 h2
    constructor
    · unfold smart_retry
      rw [if_neg (by rw [h1]; exact Bool.false_ne_true), if_pos h2]
    · intro hfail
      unfold translate_with_extended_retry extended_retry_waits
      rw [show (5 : Nat) :: 10 :: 20 :: [] = [5, 10, 20] from rfl]
      simp only [extended_retry_go, hfail]
  · intro h1 h2
    unfold smart_retry
    rw [if_neg (by rw [h1]; exact Bool.false_ne_true),
      if_neg (by rw [h2]; exact Bool.false_ne_true)]

/-- C6 witness: the three classification branches at concrete error
messages, and the chunk bound plus success-join on a concrete text, all
through the main theorem. -/
theorem c6_smart_retry_spec_witness :
    smart_retry (fun _ p => some ("T" ++ p)) (fun s => "P:" ++ s)
        "Hi there.\n\nBye now." "model context exceeded" =
      translate_chunked (fun _ p => some ("T" ++ p)) (fun s => "P:" ++ s)
        "Hi there.\n\nBye now." 1500 ∧
    translate_chunked (fun _ p => some ("T" ++ p)) (fun s => "P:" ++ s)
        "Hi there.\n\nBye now." 1500 =
      (true, py_join "\n\n"
        (["Hi there.", "Bye now."].map
          (fun c => py_strip (("T" ++ ("P:" ++ c)))))) ∧
    smart_retry (fun _ _ => none) (fun s => "P:" ++ s) "x" "connection reset" =
      (false, "[Extended retry failed after multiple attempts]") ∧
    translate_with_extended_retry (fun _ _ => none) ("P:" ++ "x") =
      ((false, "[Extended retry failed after multiple attempts]"), [5, 10, 20]) ∧
    smart_retry (fun _ p => some p) (fun s => s) "x" "boom" = (false, "boom") := by
  have h1 := (c6_smart_retry_spec (fun _ p => some ("T" ++ p))
    (fun s => "P:" ++ s) "Hi there.\n\nBye now." "model context exceeded").1
    (by decide)
  have h3 := (c6_smart_retry_spec (fun _ p => some ("T" ++ p))
    (fun s => "P:" ++ s) "Hi there.\n\nBye now." "model context exceeded").2.2.1
    (fun s => "T" ++ s) (fun i p => rfl) (by decide)
  have h4 := (c6_smart_retry_spec (fun _ _ => none) (fun s => "P:" ++ s)
    "x" "connection reset").2.2.2.1 (by decide) (by decide)
  have h5 := (c6_smart_retry_spec (fun _ p => some p) (fun s => s)
    "x" "boom").2.2.2.2 (by decide) (by decide)
  refine ⟨h1, ?_, ?_, h4.2 (fun i => rfl), h5⟩
  · rw [h3]
    decide
  · rw [h4.1, h4.2 (fun i => rfl)]

/-! ## Segment-marker parsing

`OllamaClient._parse_batch_response` and
`translation_helpers._parse_merged_response` both regex-scan for
`<<<SEG_(\d+)>>>\s*(.*?)(?=<<<SEG_|\Z)` with DOTALL.  `find_matches_fuel`
reproduces `re.findall` for this pattern: scan for the literal `<<<SEG_`,
require a digit run and `>>>`, eat following whitespace greedily, then
capture lazily up to the next occurrence of the literal or the end; a
malformed marker advances the scan by one character, exactly as the regex
engine does.  Fuel is `length + 1`; every step consumes at least one
character, so it is never exhausted.
-/

/-- The marker literal `<<<SEG_`. -/
def marker_lit : List Char := "<<<SEG_".data

/-- Split a character list at the first occurrence of `<<<SEG_`: the part
before it, and the rest starting with the literal (empty if absent). -/
def split_at_marker : List Char → List Char × List Char
  | [] => ([], [])
  | c :: rest =>
    if marker_lit.isPrefixOf (c :: rest) then ([], c :: rest)
    else
      let p := split_at_marker rest
      (c :: p.1, p.2)

/-- `re.findall` for the numbered-segment pattern (see section comment). -/
def find_matches_fuel : Nat → List Char → List (Nat × String)
  | 0, _ => []
  | fuel + 1, s =>
    match (split_at_marker s).2 with
    | [] => []
    | c :: rest0 =>
      let after_lit := (c :: rest0).drop marker_lit.length
      let ds := after_lit.takeWhile py_is_digit
      let after_ds := after_lit.drop ds.length
      if ds.isEmpty || !((">>>".data).isPrefixOf after_ds) then
        find_matches_fuel fuel rest0
      else
        let content_zone := (after_ds.drop 3).dropWhile py_is_space
        (digits_to_nat ds, String.mk (split_at_marker content_zone).1)
          :: find_matches_fuel fuel (split_at_marker content_zone).2

/-- All `(index, raw content)` marker matches of a response. -/
def find_matches (resp : String) : List (Nat × String) :=
  find_matches_fuel (resp.data.length + 1) resp.data

/-- The fill loop shared by both parsers: a `results` array of
`expected_count` empty strings, each in-range match writing its stripped
content at its index (later duplicates overwrite). -/
def fill_results (ms : List (Nat × String)) (expected : Nat) :
    List String :=
  ms.foldl
    (fun results m =>
      if m.1 < expected then results.set m.1 (py_strip m.2) else results)
    (List.replicate expected "")

/-- `[p.strip() for p in response.split(sep) if p.strip()]`. -/
def split_strip_filter (resp sep : String) : List String :=
  ((py_split resp sep).map py_strip).filter (fun p => p ≠ "")

/-- `config.BATCH_SEPARATOR.strip()`. -/
def batch_separator_stripped : String := "---SEGMENT_SEPARATOR---"

/-- The alternative separators tried by `_parse_batch_response`. -/
def alternative_separators : List String :=
  ["---SEGMENT_SEPARATOR---", "\n---\n", "\n\n---\n\n", "---"]

/-- The strategy-3 loop of `_parse_batch_response`.  The Python `parts`
variable is reassigned by every separator present in the response, even
when its piece count is wrong; the loop returns early only on a count
match, and the final value of `parts` is what strategy 5 falls back to. -/
def alt_sep_loop (resp : String) (expected : Nat) :
    List String → List String → Option (List String) × List String
  | [], parts => (none, parts)
  | sep :: rest, parts =>
    if py_contains resp sep then
      let parts2 := split_strip_filter resp sep
      if parts2.length = expected then (some parts2, parts2)
      else alt_sep_loop resp expected rest parts2
    else alt_sep_loop resp expected rest parts

/-- `OllamaClient._parse_batch_response`.  The float threshold
`parsed_count >= expected_count * 0.8` is embedded as the exact rational
comparison `5 * parsed_count ≥ 4 * expected`. -/
def parse_batch_response (resp : String) (expected : Nat) : List String :=
  if !(find_matches resp).isEmpty &&
      (((find_matches resp).filter (fun m => m.1 < expected)).length == expected) &&
      (fill_results (find_matches resp) expected).all (fun r => !(r == "")) then
    fill_results (find_matches resp) expected
  else if !(find_matches resp).isEmpty &&
      (4 * expected ≤
        5 * ((find_matches resp).filter (fun m => m.1 < expected)).length) then
    fill_results (find_matches resp) expected
  else if (split_strip_filter resp batch_separator_stripped).length = expected then
    split_strip_filter resp batch_separator_stripped
  else
    match alt_sep_loop resp expected alternative_separators
        (split_strip_filter resp batch_separator_stripped) with
    | (some p, _) => p
    | (none, parts2) =>
      if !(find_matches resp).isEmpty &&
          (fill_results (find_matches resp) expected).any (fun r => !(r == "")) then
        fill_results (find_matches resp) expected
      else if !parts2.isEmpty then parts2
      else fill_results (find_matches resp) expected

/-- `translation_helpers._parse_merged_response`. -/
def parse_merged_response (resp : String) (expected : Nat) : List String :=
  if (fill_results (find_matches resp) expected).all (fun r => r == "") then
    if (split_strip_filter resp "\n\n").length = expected then
      split_strip_filter resp "\n\n"
    else if expected = 1 then [py_strip resp]
    else fill_results (find_matches resp) expected
  else fill_results (find_matches resp) expected

/-! ## translation_helpers : merged-paragraph translation

`translate_merged_paragraphs` with the cache model above and the client
call `translate_once` abstracted as `t_once : String → Bool × String`
(target and source language are baked into it, as they are constants of one
call).  The embedding also counts the individual fallback calls made for
empty slots, which is the observable the partial-recovery claim is about.
-/

/-- Digits of a natural number (fuel-structural so the kernel evaluates). -/
def nat_digits_fuel : Nat → Nat → List Char
  | 0, _ => []
  | fuel + 1, n =>
    if n < 10 then [Char.ofNat (48 + n)]
    else nat_digits_fuel fuel (n / 10) ++ [Char.ofNat (48 + n % 10)]

/-- Decimal string of a natural number, as Python `str(i)`. -/
def nat_to_string (n : Nat) : String :=
  String.mk (nat_digits_fuel (n + 1) n)

/-- `translation_helpers._build_segment_marker`. -/
def build_segment_marker (index : Nat) : String :=
  "<<<SEG_" ++ nat_to_string index ++ ">>>"

/-- Accumulator of `_merge_texts_with_markers`. -/
structure MergeState where
  batches : List (String × List Nat)
  current_batch : List String
  current_indices : List Nat
  current_length : Nat

/-- One step of `_merge_texts_with_markers` over `(i, text)`. -/
def merge_step (max_chars : Nat) (st : MergeState) (it : Nat × String) :
    MergeState :=
  if py_strip it.2 = "" then st
  else
    let segment := build_segment_marker st.current_indices.length ++ "\n" ++ it.2
    let seg_len := segment.length + 1
    if st.current_batch ≠ [] ∧ max_chars < st.current_length + seg_len then
      let segment2 := build_segment_marker 0 ++ "\n" ++ it.2
      { batches :=
          st.batches ++ [(py_join "\n" st.current_batch, st.current_indices)],
        current_batch := [segment2],
        current_indices := [it.1],
        current_length := segment2.length }
    else
      { st with
        current_batch := st.current_batch ++ [segment],
        current_indices := st.current_indices ++ [it.1],
        current_length := st.current_length + seg_len }

/-- `translation_helpers._merge_texts_with_markers`. -/
def merge_texts_with_markers (texts : List String) (max_chars : Nat) :
    List (String × List Nat) :=
  if texts.isEmpty then []
  else
    let fin := texts.enum.foldl (merge_step max_chars) ⟨[], [], [], 0⟩
    if fin.current_batch ≠ [] then
      fin.batches ++ [(py_join "\n" fin.current_batch, fin.current_indices)]
    else fin.batches

/-- The marker-preservation instruction prepended to each merged batch. -/
def instruction_text : String :=
  "IMPORTANT: Keep the <<<SEG_N>>> markers in your output.\n" ++
  "Translate each segment while preserving the markers.\n\n"

/-- Output of the initial cache scan of `translate_merged_paragraphs`. -/
structure ScanOut where
  results : List (Bool × String)
  uncached_indices : List Nat
  uncached_texts : List String
  cache : CacheState

/-- The initial cache-check loop of `translate_merged_paragraphs`: blank
texts resolve to success with the empty string, cache hits resolve to the
cached value (touching the entry), the rest is queued for batching. -/
def tmp_scan (src_key tgt : String) :
    CacheState → List String → Nat → ScanOut
  | cache, [], _ => ⟨[], [], [], cache⟩
  | cache, text :: rest, i =>
    if py_strip text = "" then
      let r := tmp_scan src_key tgt cache rest (i + 1)
      ⟨(true, "") :: r.results, r.uncached_indices, r.uncached_texts, r.cache⟩
    else
      match cache_find cache src_key tgt text with
      | some e =>
        let touched := (TranslationCache.get cache src_key tgt text).2
        let r := tmp_scan src_key tgt touched rest (i + 1)
        ⟨(true, e.result) :: r.results, r.uncached_indices, r.uncached_texts,
          r.cache⟩
      | none =>
        let r := tmp_scan src_key tgt cache rest (i + 1)
        ⟨(false, "") :: r.results, i :: r.uncached_indices,
          text :: r.uncached_texts, r.cache⟩

/-- Output of the batch loop of `translate_merged_paragraphs`. -/
structure BatchOut where
  results : List (Bool × String)
  cache : CacheState
  individual_calls : Nat

/-- The translated-parts fill loop of `translate_merged_paragraphs`: a
nonempty part is accepted and cached; an empty part triggers one
individual `translate_once` call for that unit alone. -/
def tmp_fill (cfg : CacheConfig) (t_once : String → Bool × String)
    (texts : List String) (uncached_indices : List Nat) (src_key tgt : String) :
    List String → Nat → List (Bool × String) → CacheState → Nat → BatchOut
  | [], _, results, cache, calls => ⟨results, cache, calls⟩
  | tr :: rest, pos, results, cache, calls =>
    let original_idx := uncached_indices.getD pos 0
    let original_text := texts.getD original_idx ""
    if tr ≠ "" then
      tmp_fill cfg t_once texts uncached_indices src_key tgt rest (pos + 1)
        (results.set original_idx (true, tr))
        (TranslationCache.put cfg cache src_key tgt original_text tr) calls
    else
      let fb := t_once original_text
      if fb.1 then
        tmp_fill cfg t_once texts uncached_indices src_key tgt rest (pos + 1)
          (results.set original_idx (true, fb.2))
          (TranslationCache.put cfg cache src_key tgt original_text fb.2)
          (calls + 1)
      else
        tmp_fill cfg t_once texts uncached_indices src_key tgt rest (pos + 1)
          (results.set original_idx
            (false, "[翻譯失敗] " ++ py_take original_text 30 ++ "..."))
          cache (calls + 1)

/-- The whole-batch-failed loop of `translate_merged_paragraphs`: one
individual call per unit of the failed batch. -/
def tmp_fallback (cfg : CacheConfig) (t_once : String → Bool × String)
    (texts : List String) (uncached_indices : List Nat) (src_key tgt : String) :
    Nat → Nat → List (Bool × String) → CacheState → Nat → BatchOut
  | 0, _, results, cache, calls => ⟨results, cache, calls⟩
  | n + 1, pos, results, cache, calls =>
    let original_idx := uncached_indices.getD pos 0
    let original_text := texts.getD original_idx ""
    let fb := t_once original_text
    if fb.1 then
      tmp_fallback cfg t_once texts uncached_indices src_key tgt n (pos + 1)
        (results.set original_idx (true, fb.2))
        (TranslationCache.put cfg cache src_key tgt original_text fb.2)
        (calls + 1)
    else
      tmp_fallback cfg t_once texts uncached_indices src_key tgt n (pos + 1)
        (results.set original_idx
          (false, "[翻譯失敗] " ++ py_take original_text 30 ++ "..."))
        cache (calls + 1)

/-- The merged-batch loop of `translate_merged_paragraphs`. -/
def tmp_batches (cfg : CacheConfig) (t_once : String → Bool × String)
    (texts : List String) (uncached_indices : List Nat) (src_key tgt : String) :
    List (String × List Nat) → Nat → List (Bool × String) → CacheState →
    Nat → BatchOut
  | [], _, results, cache, calls => ⟨results, cache, calls⟩
  | (merged_text, local_indices) :: rest, offset, results, cache, calls =>
    let batch_size := local_indices.length
    let resp := t_once (instruction_text ++ merged_text)
    if resp.1 then
      let parts := parse_merged_response resp.2 batch_size
      let step := tmp_fill cfg t_once texts uncached_indices src_key tgt
        parts offset results cache calls
      tmp_batches cfg t_once texts uncached_indices src_key tgt rest
        (offset + batch_size) step.results step.cache step.individual_calls
    else
      let step := tmp_fallback cfg t_once texts uncached_indices src_key tgt
        batch_size offset results cache calls
      tmp_batches cfg t_once texts uncached_indices src_key tgt rest
        (offset + batch_size) step.results step.cache step.individual_calls

/-- `translation_helpers.translate_merged_paragraphs` (returning the result
list, the final cache state and the number of individual fallback calls). -/
def translate_merged_paragraphs (cfg : CacheConfig)
    (t_once : String → Bool × String) (texts : List String) (tgt : String)
    (src_lang : Option String) (cache : CacheState) (max_chars : Nat) :
    BatchOut :=
  if texts.isEmpty then ⟨[], cache, 0⟩
  else
    let src_key := py_lower (src_lang.getD "auto")
    let scan := tmp_scan src_key tgt cache texts 0
    if scan.uncached_texts.isEmpty then ⟨scan.results, scan.cache, 0⟩
    else
      tmp_batches cfg t_once texts scan.uncached_indices src_key tgt
        (merge_texts_with_markers scan.uncached_texts max_chars) 0
        scan.results scan.cache 0

/-! ### Lemmas about the cache under capacity, and about the parsers -/

/-- The cached result string under a key, if any. -/
def cache_result (st : CacheState) (s t x : String) : Option String :=
  (cache_find st s t x).map (fun e => e.result)

theorem cleanup_eq_of_le {cfg : CacheConfig} {st : CacheState}
    (h : st.entries.length ≤ cfg.max_entries) :
    cleanup_if_needed cfg st = st := by
  unfold cleanup_if_needed
  rw [if_pos h]

/-- Unfolding of `put` on a missing key. -/
theorem put_of_miss {cfg : CacheConfig} {st : CacheState} {s t x r : String}
    (h : cache_find st s t x = none) :
    TranslationCache.put cfg st s t x r =
      cleanup_if_needed cfg
        ⟨st.entries ++ [⟨s, t, x, r, st.clock, st.clock⟩], st.clock + 1⟩ := by
  unfold TranslationCache.put
  rw [h]

/-- Unfolding of `put` on an existing key. -/
theorem put_of_hit {cfg : CacheConfig} {st : CacheState} {s t x r : String}
    {e : CacheEntry} (h : cache_find st s t x = some e) :
    TranslationCache.put cfg st s t x r =
      cleanup_if_needed cfg
        ⟨st.entries.map (fun y => if entry_key y = (s, t, x) then
            { y with result := r, last_used_at := st.clock } else y),
          st.clock + 1⟩ := by
  unfold TranslationCache.put
  rw [h]

/-- Inserting a fresh key within capacity makes its result retrievable. -/
theorem put_fresh_find {cfg : CacheConfig} {st : CacheState} {s t x r : String}
    (hmiss : cache_find st s t x = none)
    (hlen : st.entries.length + 1 ≤ cfg.max_entries) :
    cache_result (TranslationCache.put cfg st s t x r) s t x = some r := by
  rw [put_of_miss hmiss]
  have hc : (st.entries ++ [(⟨s, t, x, r, st.clock, st.clock⟩ : CacheEntry)]).length
      ≤ cfg.max_entries := by
    simp only [List.length_append, List.length_cons, List.length_nil]
    omega
  rw [cleanup_eq_of_le hc]
  unfold cache_result cache_find
  rw [List.find?_append]
  unfold cache_find at hmiss
  rw [hmiss]
  simp [entry_key]

/-- A put under a different key within capacity does not change the result
retrievable under a key. -/
theorem put_other_find {cfg : CacheConfig} {st : CacheState}
    {s t x s' t' x' r : String} (hne : (s', t', x') ≠ (s, t, x))
    (hlen : st.entries.length + 1 ≤ cfg.max_entries) :
    cache_result (TranslationCache.put cfg st s' t' x' r) s t x =
      cache_result st s t x := by
  cases hf : cache_find st s' t' x' with
  | some e =>
    rw [put_of_hit hf]
    have hc : (st.entries.map (fun y => if entry_key y = (s', t', x') then
        { y with result := r, last_used_at := st.clock } else y)).length
        ≤ cfg.max_entries := by
      simp only [List.length_map]
      omega
    rw [cleanup_eq_of_le hc]
    unfold cache_result cache_find
    rw [List.find?_map]
    have hcomp : ((fun e => decide (entry_key e = (s, t, x))) ∘
        (fun y => if entry_key y = (s', t', x') then
          { y with result := r, last_used_at := st.clock } else y)) =
        (fun e => decide (entry_key e = (s, t, x))) := by
      funext y
      by_cases hy : entry_key y = (s', t', x')
      · simp only [Function.comp, if_pos hy]
        rfl
      · simp only [Function.comp, if_neg hy]
    rw [hcomp]
    cases hfind : st.entries.find? (fun e => decide (entry_key e = (s, t, x))) with
    | none => rfl
    | some e2 =>
      have hkey : entry_key e2 = (s, t, x) := by
        have := List.find?_some hfind
        simpa using this
      have hne2 : ¬ (entry_key e2 = (s', t', x')) := by
        rw [hkey]
        intro hcontra
        exact hne hcontra.symm
      have hg : (if entry_key e2 = (s', t', x') then
          { e2 with result := r, last_used_at := st.clock } else e2) = e2 :=
        if_neg hne2
      simp [Function.comp, hg]
  | none =>
    rw [put_of_miss hf]
    have hc : (st.entries ++ [(⟨s', t', x', r, st.clock, st.clock⟩ : CacheEntry)]).length
        ≤ cfg.max_entries := by
      simp only [List.length_append, List.length_cons, List.length_nil]
      omega
    rw [cleanup_eq_of_le hc]
    unfold cache_result cache_find
    rw [List.find?_append]
    have hd : (decide (entry_key (⟨s', t', x', r, st.clock, st.clock⟩ : CacheEntry)
        = (s, t, x))) = false := decide_eq_false hne
    have hnew : List.find? (fun e => decide (entry_key e = (s, t, x)))
        [(⟨s', t', x', r, st.clock, st.clock⟩ : CacheEntry)] = none := by
      rw [List.find?_cons_of_neg]
      · rfl
      · intro hcontra
        exact hne (of_decide_eq_true hcontra)
    rw [hnew]
    cases st.entries.find? (fun e => decide (entry_key e = (s, t, x))) <;> rfl

/-- A put within capacity grows the cache by at most one entry. -/
theorem put_length_noevict {cfg : CacheConfig} {st : CacheState}
    {s t x r : String} (hlen : st.entries.length + 1 ≤ cfg.max_entries) :
    (TranslationCache.put cfg st s t x r).entries.length ≤
      st.entries.length + 1 := by
  cases hf : cache_find st s t x with
  | some e =>
    rw [put_of_hit hf]
    have hc : (st.entries.map (fun y => if entry_key y = (s, t, x) then
        { y with result := r, last_used_at := st.clock } else y)).length
        ≤ cfg.max_entries := by
      simp only [List.length_map]
      omega
    rw [cleanup_eq_of_le hc]
    simp only [List.length_map]
    omega
  | none =>
    rw [put_of_miss hf]
    have hc : (st.entries ++ [(⟨s, t, x, r, st.clock, st.clock⟩ : CacheEntry)]).length
        ≤ cfg.max_entries := by
      simp only [List.length_append, List.length_cons, List.length_nil]
      omega
    rw [cleanup_eq_of_le hc]
    simp only [List.length_append, List.length_cons, List.length_nil]
    omega

theorem fill_results_length (ms : List (Nat × String)) (N : Nat) :
    (fill_results ms N).length = N := by
  unfold fill_results
  suffices h : ∀ (l : List (Nat × String)) (init : List String),
      init.length = N →
      (l.foldl (fun results m =>
        if m.1 < N then results.set m.1 (py_strip m.2) else results)
        init).length = N by
    exact h ms (List.replicate N "") (List.length_replicate N "")
  intro l
  induction l with
  | nil => intro init h; exact h
  | cons m rest ih =>
    intro init h
    simp only [List.foldl_cons]
    by_cases hm : m.1 < N
    · rw [if_pos hm]
      exact ih _ (by rw [List.length_set]; exact h)
    · rw [if_neg hm]
      exact ih _ h

theorem parse_merged_response_length (resp : String) (N : Nat) :
    (parse_merged_response resp N).length = N := by
  unfold parse_merged_response
  split_ifs with h1 h2 h3
  · exact h2
  · rw [h3]
    rfl
  · exact fill_results_length _ _
  · exact fill_results_length _ _


/-- The fallback-call counter of the fill loop counts exactly the empty
translated parts. -/
theorem tmp_fill_calls (cfg : CacheConfig) (t_once : String → Bool × String)
    (texts : List String) (idxs : List Nat) (k g : String) :
    ∀ (parts : List String) (pos : Nat) (results : List (Bool × String))
      (cache : CacheState) (calls : Nat),
      (tmp_fill cfg t_once texts idxs k g parts pos results
        cache calls).individual_calls =
        calls + (parts.filter (fun p => p = "")).length := by
  intro parts
  induction parts with
  | nil => intro pos results cache calls; rfl
  | cons tr rest ih =>
    intro pos results cache calls
    rw [tmp_fill]
    by_cases htr : tr ≠ ""
    · rw [if_pos htr, ih]
      have hfil : (List.filter (fun p => decide (p = "")) (tr :: rest)) =
          List.filter (fun p => decide (p = "")) rest := by
        rw [List.filter_cons]
        simp [htr]
      simp only [hfil]
    · rw [if_neg htr]
      rw [not_not] at htr
      subst htr
      have hfil : (List.filter (fun p => decide (p = "")) ("" :: rest)) =
          "" :: List.filter (fun p => decide (p = "")) rest := by
        rw [List.filter_cons]
        simp
      by_cases hfb : (t_once (texts.getD (idxs.getD pos 0) "")).1
      · rw [if_pos hfb, ih, hfil]
        simp only [List.length_cons]
        omega
      · rw [if_neg hfb, ih, hfil]
        simp only [List.length_cons]
        omega

/-- With every text nonblank and uncached, the initial scan resolves
nothing, queues everything in order and leaves the cache untouched. -/
theorem tmp_scan_all_miss (src_key tgt : String) :
    ∀ (texts : List String) (cache : CacheState) (i : Nat),
      (∀ t ∈ texts, py_strip t ≠ "") →
      (∀ t ∈ texts, cache_find cache src_key tgt t = none) →
      tmp_scan src_key tgt cache texts i =
        ⟨List.replicate texts.length (false, ""),
          List.range' i texts.length, texts, cache⟩ := by
  intro texts
  induction texts with
  | nil => intro cache i _ _; rfl
  | cons t rest ih =>
    intro cache i hblank hmiss
    rw [tmp_scan]
    rw [if_neg (by
      have := hblank t (List.mem_cons_self t rest)
      simpa using this)]
    rw [hmiss t (List.mem_cons_self t rest)]
    rw [ih cache (i + 1) (fun u hu => hblank u (List.mem_cons_of_mem t hu))
      (fun u hu => hmiss u (List.mem_cons_of_mem t hu))]
    simp [List.replicate_succ, List.range'_succ]

theorem range'_zero_getD {n pos : Nat} (h : pos < n) :
    (List.range' 0 n).getD pos 0 = pos := by
  rw [List.getD_eq_getElem?_getD]
  rw [List.getElem?_range']
  · simp
  · exact h

theorem getD_set_self {α : Type} {l : List α} {i : Nat} {x d : α}
    (h : i < l.length) : (l.set i x).getD i d = x := by
  rw [List.getD_eq_getElem?_getD, List.getElem?_set_self]
  · rfl
  · exact h

theorem getD_set_ne {α : Type} {l : List α} {i j : Nat} {x d : α}
    (h : i ≠ j) : (l.set i x).getD j d = l.getD j d := by
  rw [List.getD_eq_getElem?_getD, List.getElem?_set_ne h,
    ← List.getD_eq_getElem?_getD]

theorem nodup_getD_ne {l : List String} (h : l.Nodup) {i j : Nat}
    (hi : i < l.length) (hj : j < l.length) (hij : i ≠ j) :
    l.getD i "" ≠ l.getD j "" := by
  rw [List.getD_eq_getElem l "" hi, List.getD_eq_getElem l "" hj]
  intro he
  exact hij (h.getElem_inj_iff.mp he)

/-- The result a unit receives from the fill loop, given its translated
part and its source text. -/
def fill_outcome (t_once : String → Bool × String) (tr t : String) :
    Bool × String :=
  if tr ≠ "" then (true, tr)
  else if (t_once t).1 then (true, (t_once t).2)
  else (false, "[翻譯失敗] " ++ py_take t 30 ++ "...")

/-! ### C2 : partial-batch recovery -/

/-- C2 counterexample: three texts merge into one batch and the model
response recovers only marker 0 — one of three expected indices, 33
percent, far below the 80 percent threshold — yet
`translate_merged_paragraphs` does not fall back to one individual call
per unit of the whole batch: it keeps the recovered slot's parsed
translation and re-queries only the two missing slots, making 2
individual calls where the claim requires 3. -/
theorem c2_below_threshold_counterexample :
    (translate_merged_paragraphs ⟨50000, 5000⟩
        (fun s => if py_contains s "<<<SEG_0>>>" then (true, "<<<SEG_0>>>\nXa")
          else (true, "IND-" ++ s))
        ["Aa", "Bb", "Cc"] "fr" none empty_cache 2000).individual_calls = 2 ∧
    (translate_merged_paragraphs ⟨50000, 5000⟩
        (fun s => if py_contains s "<<<SEG_0>>>" then (true, "<<<SEG_0>>>\nXa")
          else (true, "IND-" ++ s))
        ["Aa", "Bb", "Cc"] "fr" none empty_cache 2000).results =
      [(true, "Xa"), (true, "IND-Bb"), (true, "IND-Cc")] ∧
    ¬ (2 = 3) := by
  refine ⟨by decide, by decide, by decide⟩

/-- C2 (amended): parsing a merged response against N expected markers
always yields exactly N slots (missing ones empty); the client's
`_parse_batch_response` accepts any recovery of at least 80 percent of
the expected indices, returning the marker-filled slots; and the fill
loop of `translate_merged_paragraphs` makes exactly one individual model
call per empty slot of the parsed batch, whatever the recovery
percentage — a below-threshold recovery in the merged path never
triggers a whole-batch per-unit fallback (that path runs only when the
batch call itself fails). -/
theorem c2_partial_recovery_amended :
    (∀ (resp : String) (expected : Nat),
      (parse_merged_response resp expected).length = expected) ∧
    (∀ (resp : String) (expected : Nat),
      find_matches resp ≠ [] →
      4 * expected ≤
        5 * ((find_matches resp).filter (fun m => m.1 < expected)).length →
      parse_batch_response resp expected =
        fill_results (find_matches resp) expected) ∧
    (∀ (cfg : CacheConfig) (t_once : String → Bool × String)
      (texts : List String) (idxs : List Nat) (k g : String)
      (parts : List String) (pos : Nat) (results : List (Bool × String))
      (cache : CacheState) (calls : Nat),
      (tmp_fill cfg t_once texts idxs k g parts pos results
        cache calls).individual_calls =
        calls + (parts.filter (fun p => p = "")).length) := by
  refine ⟨parse_merged_response_length, ?_, ?_⟩
  · intro resp expected hne hthr
    unfold parse_batch_response
    by_cases h1 : (!(find_matches resp).isEmpty &&
        (((find_matches resp).filter (fun m => m.1 < expected)).length
          == expected) &&
        ((fill_results (find_matches resp) expected).all
          (fun r => !(r == ""))) : Bool) = true
    · rw [if_pos h1]
    · rw [if_neg h1, if_pos]
      rw [Bool.and_eq_true]
      constructor
      · rw [Bool.not_eq_true', List.isEmpty_eq_false]
        exact hne
      · exact decide_eq_true hthr
  · intro cfg t_once texts idxs k g parts pos results cache calls
    exact tmp_fill_calls cfg t_once texts idxs k g parts pos results
      cache calls

/-- C2 witness: a concrete response with both markers of a 2-segment
batch recovered meets the 80 percent threshold and is accepted. -/
theorem c2_partial_recovery_amended_witness :
    find_matches "<<<SEG_0>>>\nA\n<<<SEG_1>>>\nB" ≠ [] ∧
    4 * 2 ≤ 5 * ((find_matches "<<<SEG_0>>>\nA\n<<<SEG_1>>>\nB").filter
      (fun m => m.1 < 2)).length ∧
    parse_batch_response "<<<SEG_0>>>\nA\n<<<SEG_1>>>\nB" 2 =
      fill_results (find_matches "<<<SEG_0>>>\nA\n<<<SEG_1>>>\nB") 2 :=
  ⟨by decide, by decide,
    c2_partial_recovery_amended.2.1 "<<<SEG_0>>>\nA\n<<<SEG_1>>>\nB" 2
      (by decide) (by decide)⟩

/-! ### C7 : script conversion versus the cache

`translation_service.translate_texts` (sentence mode, one target): it
batch-translates via `translate_blocks_batch` — whose merged-context path
is `translate_merged_paragraphs` above — and only then, on the returned
pairs, converts successful results simplified→traditional when the
target is Traditional Chinese.  The OpenCC converter is abstracted as
`s2t : String → String`.  (The source's call site passes no cache to
`translate_blocks_batch`; the embedding threads the cache the way the
callee declares it, which is the reading on which the claim is about
cached values at all.)
-/

/-- `translation_service._is_traditional_chinese_target`. -/
def is_traditional_chinese_target (tgt : String) : Bool :=
  py_contains (py_lower tgt) "traditional" ||
    (py_lower tgt == "zh-tw" || (py_lower tgt == "zh-hk" ||
      py_lower tgt == "zh-hant"))

/-- The single-target sentence-mode body of
`translation_service.translate_texts`: batch-translate, then map the
conversion over the successful results, pairing each text with its final
value. -/
def translate_texts_one_target (cfg : CacheConfig) (s2t : String → String)
    (t_once : String → Bool × String) (texts : List String) (tgt : String)
    (src_lang : Option String) (cache : CacheState) (max_chars : Nat) :
    List (String × String) × CacheState :=
  let out := translate_merged_paragraphs cfg t_once texts tgt src_lang
    cache max_chars
  (List.zipWith
    (fun text r =>
      (text,
        if r.1 && is_traditional_chinese_target tgt then s2t r.2 else r.2))
    texts out.results,
    out.cache)

/-- C7 counterexample: target `zh-TW`, the model answers the merged batch
with the simplified-script stand-in `简`, and the converter maps `简` to
`簡`.  The value returned to the caller is the converted `簡`, but the
value written to the cache is the raw `简`: conversion runs after
caching, so the cached value is not the script-normalized text. -/
theorem c7_cached_value_counterexample :
    cache_result (translate_texts_one_target ⟨50000, 5000⟩
        (fun s => if s = "简" then "簡" else s)
        (fun s => (true,
          if py_contains s "<<<SEG_" then "<<<SEG_0>>>\n简" else "X"))
        ["Aa"] "zh-TW" none empty_cache 2000).2 "auto" "zh-TW" "Aa" =
      some "简" ∧
    (translate_texts_one_target ⟨50000, 5000⟩
        (fun s => if s = "简" then "簡" else s)
        (fun s => (true,
          if py_contains s "<<<SEG_" then "<<<SEG_0>>>\n简" else "X"))
        ["Aa"] "zh-TW" none empty_cache 2000).1 = [("Aa", "簡")] ∧
    ¬ ("简" = "簡") := by
  refine ⟨by decide, by decide, by decide⟩

/-- C7 (amended): the script conversion is applied to successful results
only after `translate_blocks_batch` returns, so the cache ends up with
the raw model output.  The final cache state never depends on the
converter at all, and in the concrete run of the counterexample the
caller receives `s2t` of the raw part while the cache keeps the raw part
itself, for every converter `s2t`. -/
theorem c7_s2t_after_cache_amended :
    (∀ (cfg : CacheConfig) (s2t : String → String)
      (t_once : String → Bool × String) (texts : List String) (tgt : String)
      (src_lang : Option String) (cache : CacheState) (max_chars : Nat),
      (translate_texts_one_target cfg s2t t_once texts tgt src_lang cache
        max_chars).2 =
      (translate_merged_paragraphs cfg t_once texts tgt src_lang cache
        max_chars).cache) ∧
    (∀ (s2t : String → String),
      (translate_texts_one_target ⟨50000, 5000⟩ s2t
        (fun s => (true,
          if py_contains s "<<<SEG_" then "<<<SEG_0>>>\n简" else "X"))
        ["Aa"] "zh-TW" none empty_cache 2000).1 = [("Aa", s2t "简")] ∧
      cache_result (translate_texts_one_target ⟨50000, 5000⟩ s2t
        (fun s => (true,
          if py_contains s "<<<SEG_" then "<<<SEG_0>>>\n简" else "X"))
        ["Aa"] "zh-TW" none empty_cache 2000).2 "auto" "zh-TW" "Aa" =
        some "简") := by
  refine ⟨fun _ _ _ _ _ _ _ _ => rfl, fun s2t => ⟨?_, rfl⟩⟩
  show [("Aa",
    if (true : Bool) && is_traditional_chinese_target "zh-TW" then
      s2t "简" else "简")] = [("Aa", s2t "简")]
  rfl

/-! ### C1 : BatchTranslator

`translation_helpers.BatchTranslator` with the client abstracted: the
claim's mock backend replaces `client.translate_batch` wholesale (and
`translate_once` backs the individual fallback).  The mutable object is a
state record; the `_results` dict is an association list whose most
recent write is nearest the head, matching dict overwrite under lookup.
-/

/-- `config.MIN_MAX_BATCH_CHARS`. -/
def MIN_MAX_BATCH_CHARS : Nat := 10000

/-- `config.MAX_MAX_BATCH_CHARS`. -/
def MAX_MAX_BATCH_CHARS : Nat := 100000

/-- The two client entry points `BatchTranslator` uses, with target and
source language baked in. -/
structure BTClient where
  translate_batch : List String → Bool × List String
  translate_once : String → Bool × String

/-- The mutable fields of a `BatchTranslator` instance. -/
structure BTState where
  cache : CacheState
  pending : List (String × Nat)
  pending_chars : Nat
  results : List (Nat × (Bool × String))
  next_index : Nat

/-- The batch-success arm of `BatchTranslator.flush`: store each reply at
its unit's index and cache it (pairs walked positionally, as
`enumerate(self._pending)` against `results[i]`). -/
def bt_store_batch (cfg : CacheConfig) (k g : String) :
    List (String × Nat) → List String → CacheState →
      List (Nat × (Bool × String)) → CacheState × List (Nat × (Bool × String))
  | [], _, cache, results => (cache, results)
  | _ :: _, [], cache, results => (cache, results)
  | (text, idx) :: rest, r :: rs, cache, results =>
    bt_store_batch cfg k g rest rs
      (TranslationCache.put cfg cache k g text r)
      ((idx, (true, r)) :: results)

/-- `BatchTranslator._fallback_individual`. -/
def bt_fallback_individual (cfg : CacheConfig) (cl : BTClient) (k g : String) :
    List (String × Nat) → CacheState → List (Nat × (Bool × String)) →
      CacheState × List (Nat × (Bool × String))
  | [], cache, results => (cache, results)
  | (text, idx) :: rest, cache, results =>
    let r := cl.translate_once text
    if r.1 then
      bt_fallback_individual cfg cl k g rest
        (TranslationCache.put cfg cache k g text r.2)
        ((idx, (true, r.2)) :: results)
    else
      bt_fallback_individual cfg cl k g rest cache
        ((idx, (false, "[Translation failed|" ++ g ++ "] " ++ text)) ::
          results)

/-- `BatchTranslator.flush`. -/
def BatchTranslator.flush (cfg : CacheConfig) (cl : BTClient) (k g : String)
    (st : BTState) : BTState :=
  if st.pending.isEmpty then st
  else
    let r := cl.translate_batch (st.pending.map Prod.fst)
    if r.1 && (r.2.length == st.pending.length) then
      let s2 := bt_store_batch cfg k g st.pending r.2 st.cache st.results
      ⟨s2.1, [], 0, s2.2, st.next_index⟩
    else
      let s2 := bt_fallback_individual cfg cl k g st.pending st.cache
        st.results
      ⟨s2.1, [], 0, s2.2, st.next_index⟩

/-- `BatchTranslator.add`: allocate the next index, resolve blank or
cached text immediately, otherwise queue it, flushing first when the
pending characters would overflow the (clamped) limit. -/
def BatchTranslator.add (cfg : CacheConfig) (cl : BTClient) (k g : String)
    (max_batch_chars : Nat) (st : BTState) (text : String) : Nat × BTState :=
  let idx := st.next_index
  if py_strip text = "" then
    (idx, { st with
            next_index := idx + 1,
            results := (idx, (true, "")) :: st.results })
  else
    match cache_find st.cache k g text with
    | some e =>
      (idx, { st with
              next_index := idx + 1,
              cache := (TranslationCache.get st.cache k g text).2,
              results := (idx, (true, e.result)) :: st.results })
    | none =>
      let st1 : BTState := { st with next_index := idx + 1 }
      let st2 := if !st1.pending.isEmpty &&
          (max_batch_chars < st1.pending_chars + text.length) then
        BatchTranslator.flush cfg cl k g st1
      else st1
      (idx, { st2 with
              pending := st2.pending ++ [(text, idx)],
              pending_chars := st2.pending_chars + text.length })

/-- `BatchTranslator.get`. -/
def BatchTranslator.get (cfg : CacheConfig) (cl : BTClient) (k g : String)
    (st : BTState) (idx : Nat) : (Bool × String) × BTState :=
  let st2 := if (st.results.lookup idx).isNone then
    BatchTranslator.flush cfg cl k g st
  else st
  ((st2.results.lookup idx).getD (false, "[Missing translation result]"),
    st2)

/-- The `[self.add(text) for text in texts]` comprehension. -/
def bt_add_all (cfg : CacheConfig) (cl : BTClient) (k g : String)
    (mc : Nat) : List String → BTState → List Nat × BTState
  | [], st => ([], st)
  | t :: rest, st =>
    let r := BatchTranslator.add cfg cl k g mc st t
    let r2 := bt_add_all cfg cl k g mc rest r.2
    (r.1 :: r2.1, r2.2)

/-- The `[self.get(idx) for idx in indices]` comprehension. -/
def bt_get_all (cfg : CacheConfig) (cl : BTClient) (k g : String) :
    List Nat → BTState → List (Bool × String)
  | [], _ => []
  | i :: rest, st =>
    let r := BatchTranslator.get cfg cl k g st i
    r.1 :: bt_get_all cfg cl k g rest r.2

/-- `BatchTranslator.translate_all` on a freshly constructed translator
(the constructor clamps the batch-character limit into
`[MIN_MAX_BATCH_CHARS, MAX_MAX_BATCH_CHARS]`). -/
def BatchTranslator.translate_all (cfg : CacheConfig) (cl : BTClient)
    (tgt : String) (src_lang : Option String) (max_batch_chars : Nat)
    (cache : CacheState) (texts : List String) : List (Bool × String) :=
  let k := py_lower (src_lang.getD "auto")
  let mc := max MIN_MAX_BATCH_CHARS (min max_batch_chars MAX_MAX_BATCH_CHARS)
  let r := bt_add_all cfg cl k tgt mc texts ⟨cache, [], 0, [], 0⟩
  bt_get_all cfg cl k tgt r.1 (BatchTranslator.flush cfg cl k tgt r.2)

/-- The claim's mock backend: `translate_batch` succeeds and echoes one
reply per submitted segment, reply `F t` for segment `t`. -/
def echo_client (F : String → String) (t1 : String → Bool × String) :
    BTClient :=
  ⟨fun ts => (true, ts.map F), t1⟩

/-- The canonical pending list holding units `q, …, q+n-1` of `texts`. -/
def bt_canon (texts : List String) (q n : Nat) : List (String × Nat) :=
  (List.range' q n).map (fun j => (texts.getD j "", j))

/-- The echo replies for the canonical pending list. -/
def bt_canon_replies (F : String → String) (texts : List String)
    (q n : Nat) : List String :=
  (List.range' q n).map (fun j => F (texts.getD j ""))

theorem bt_canon_succ (texts : List String) (q n : Nat) :
    bt_canon texts q (n + 1) =
      (texts.getD q "", q) :: bt_canon texts (q + 1) n := by
  unfold bt_canon
  rw [List.range'_succ]
  rfl

theorem bt_canon_replies_succ (F : String → String) (texts : List String)
    (q n : Nat) :
    bt_canon_replies F texts q (n + 1) =
      F (texts.getD q "") :: bt_canon_replies F texts (q + 1) n := by
  unfold bt_canon_replies
  rw [List.range'_succ]
  rfl

theorem bt_canon_concat (texts : List String) (q n : Nat) :
    bt_canon texts q n ++ [(texts.getD (q + n) "", q + n)] =
      bt_canon texts q (n + 1) := by
  unfold bt_canon
  have h := @List.range'_concat 1 q n
  simp only [one_mul] at h
  rw [h, List.map_append]
  rfl

theorem bt_canon_map_fst (F : String → String) (texts : List String)
    (q n : Nat) :
    ((bt_canon texts q n).map Prod.fst).map F =
      bt_canon_replies F texts q n := by
  unfold bt_canon bt_canon_replies
  rw [List.map_map, List.map_map]
  rfl

theorem bt_canon_length (texts : List String) (q n : Nat) :
    (bt_canon texts q n).length = n := by
  unfold bt_canon
  rw [List.length_map, List.length_range']

theorem lookup_cons_self {β : Type} {j : Nat} {v : β} {l : List (Nat × β)} :
    List.lookup j ((j, v) :: l) = some v := by
  simp [List.lookup]

theorem lookup_cons_ne {β : Type} {i j : Nat} {v : β} {l : List (Nat × β)}
    (h : j ≠ i) : List.lookup j ((i, v) :: l) = List.lookup j l := by
  have hb : (j == i) = false := by simpa using h
  simp [List.lookup, hb]

theorem flush_next_index (cfg : CacheConfig) (cl : BTClient) (k g : String)
    (st : BTState) :
    (BatchTranslator.flush cfg cl k g st).next_index = st.next_index := by
  simp only [BatchTranslator.flush]
  split
  · rfl
  · split <;> rfl

theorem getD_mem_of_lt {l : List String} {j : Nat} (h : j < l.length) :
    l.getD j "" ∈ l := by
  rw [List.getD_eq_getElem l "" h]
  exact List.getElem_mem h

/-- Storing the echo replies for units `q, …, q+n-1`: lookups outside the
stored range are untouched, lookups inside resolve to the echo, and cache
misses on other texts are preserved. -/
theorem bt_store_canon_spec (cfg : CacheConfig) (k g : String)
    (F : String → String) (texts : List String) :
    ∀ (n q : Nat) (cache : CacheState)
      (results : List (Nat × (Bool × String))),
      (∀ j, j < q ∨ q + n ≤ j →
        (bt_store_batch cfg k g (bt_canon texts q n)
          (bt_canon_replies F texts q n) cache results).2.lookup j =
          results.lookup j) ∧
      (∀ j, q ≤ j → j < q + n →
        (bt_store_batch cfg k g (bt_canon texts q n)
          (bt_canon_replies F texts q n) cache results).2.lookup j =
          some (true, F (texts.getD j ""))) ∧
      (∀ x, cache_find cache k g x = none →
        (∀ j, q ≤ j → j < q + n → x ≠ texts.getD j "") →
        cache_find (bt_store_batch cfg k g (bt_canon texts q n)
          (bt_canon_replies F texts q n) cache results).1 k g x = none) := by
  intro n
  induction n with
  | zero =>
    intro q cache results
    refine ⟨fun j _ => rfl, fun j h1 h2 => absurd h2 (by omega),
      fun x hx _ => hx⟩
  | succ n ih =>
    intro q cache results
    rw [bt_canon_succ, bt_canon_replies_succ]
    show (∀ j, j < q ∨ q + (n + 1) ≤ j →
        (bt_store_batch cfg k g (bt_canon texts (q + 1) n)
        (bt_canon_replies F texts (q + 1) n)
        (TranslationCache.put cfg cache k g (texts.getD q "")
          (F (texts.getD q "")))
        ((q, (true, F (texts.getD q ""))) :: results)).2.lookup j =
        results.lookup j) ∧
      (∀ j, q ≤ j → j < q + (n + 1) →
        (bt_store_batch cfg k g (bt_canon texts (q + 1) n)
        (bt_canon_replies F texts (q + 1) n)
        (TranslationCache.put cfg cache k g (texts.getD q "")
          (F (texts.getD q "")))
        ((q, (true, F (texts.getD q ""))) :: results)).2.lookup j =
        some (true, F (texts.getD j ""))) ∧
      (∀ x, cache_find cache k g x = none →
        (∀ j, q ≤ j → j < q + (n + 1) → x ≠ texts.getD j "") →
        cache_find (bt_store_batch cfg k g (bt_canon texts (q + 1) n)
        (bt_canon_replies F texts (q + 1) n)
        (TranslationCache.put cfg cache k g (texts.getD q "")
          (F (texts.getD q "")))
        ((q, (true, F (texts.getD q ""))) :: results)).1 k g x = none)
    obtain ⟨ih1, ih2, ih3⟩ := ih (q + 1)
      (TranslationCache.put cfg cache k g (texts.getD q "")
        (F (texts.getD q "")))
      ((q, (true, F (texts.getD q ""))) :: results)
    refine ⟨?_, ?_, ?_⟩
    · intro j hj
      have hne : j ≠ q := by omega
      rw [ih1 j (by omega), lookup_cons_ne hne]
    · intro j h1 h2
      by_cases hq : j = q
      · subst hq
        rw [ih1 j (by omega), lookup_cons_self]
      · exact ih2 j (by omega) (by omega)
    · intro x hx hne
      refine ih3 x ?_ (fun j h1 h2 => hne j (by omega) (by omega))
      refine put_preserves_miss hx ?_
      intro hc
      have hx2 : texts.getD q "" = x := by
        have h3 := congrArg (fun p => p.2.2) hc
        simpa using h3
      exact hne q (by omega) (by omega) hx2.symm

/-- Unfolding of `flush` against the echo backend on a nonempty pending
list: the batch call succeeds with one reply per segment, so the
batch-store arm runs. -/
theorem flush_store_eq (cfg : CacheConfig) (F : String → String)
    (t1 : String → Bool × String) (k g : String) (st : BTState)
    (hne : st.pending.isEmpty = false) :
    BatchTranslator.flush cfg (echo_client F t1) k g st =
      ⟨(bt_store_batch cfg k g st.pending
          ((st.pending.map Prod.fst).map F) st.cache st.results).1, [], 0,
        (bt_store_batch cfg k g st.pending
          ((st.pending.map Prod.fst).map F) st.cache st.results).2,
        st.next_index⟩ := by
  rw [BatchTranslator.flush, if_neg (by simp [hne])]
  have hcond : (((echo_client F t1).translate_batch
      (st.pending.map Prod.fst)).1 &&
      (((echo_client F t1).translate_batch
        (st.pending.map Prod.fst)).2.length == st.pending.length)) = true := by
    show (true && (((st.pending.map Prod.fst).map F).length ==
      st.pending.length)) = true
    simp [List.length_map]
  show (if (((echo_client F t1).translate_batch
      (st.pending.map Prod.fst)).1 &&
      (((echo_client F t1).translate_batch
        (st.pending.map Prod.fst)).2.length == st.pending.length)) = true
    then
      (⟨(bt_store_batch cfg k g st.pending
          ((echo_client F t1).translate_batch (st.pending.map Prod.fst)).2
          st.cache st.results).1, [], 0,
        (bt_store_batch cfg k g st.pending
          ((echo_client F t1).translate_batch (st.pending.map Prod.fst)).2
          st.cache st.results).2, st.next_index⟩ : BTState)
    else
      (⟨(bt_fallback_individual cfg (echo_client F t1) k g st.pending
          st.cache st.results).1, [], 0,
        (bt_fallback_individual cfg (echo_client F t1) k g st.pending
          st.cache st.results).2, st.next_index⟩ : BTState)) = _
  rw [if_pos hcond]
  rfl

/-- The invariant carried while `translate_all` adds texts: units below
`q` are resolved to their echo, units `q, …, m-1` are pending in order,
and texts from `m` on are still cache misses. -/
def bt_good (cfg : CacheConfig) (k g : String) (F : String → String)
    (texts : List String) (q m : Nat) (st : BTState) : Prop :=
  q ≤ m ∧
  st.pending = bt_canon texts q (m - q) ∧
  (∀ j, j < q → st.results.lookup j = some (true, F (texts.getD j ""))) ∧
  (∀ j, m ≤ j → j < texts.length →
    cache_find st.cache k g (texts.getD j "") = none)

/-- Flushing a good state resolves every pending unit. -/
theorem bt_flush_good (cfg : CacheConfig) (k g : String)
    (F : String → String) (t1 : String → Bool × String)
    (texts : List String) (hnodup : texts.Nodup) (q m : Nat) (st : BTState)
    (hm : m ≤ texts.length)
    (hgood : bt_good cfg k g F texts q m st) :
    bt_good cfg k g F texts m m
      (BatchTranslator.flush cfg (echo_client F t1) k g st) := by
  obtain ⟨hqm, hpend, hres, hmiss⟩ := hgood
  by_cases hq : q = m
  · have hpe : st.pending.isEmpty = true := by
      rw [hpend, hq, Nat.sub_self]
      rfl
    rw [BatchTranslator.flush, if_pos hpe]
    refine ⟨le_refl m, ?_, fun j hj => hres j (by omega), hmiss⟩
    rw [hpend, hq]
  · have hlt : q < m := by omega
    have hpne : st.pending.isEmpty = false := by
      rw [hpend, List.isEmpty_eq_false]
      intro hcnil
      have hlen := congrArg List.length hcnil
      rw [bt_canon_length] at hlen
      simp only [List.length_nil] at hlen
      omega
    rw [flush_store_eq cfg F t1 k g st hpne, hpend, bt_canon_map_fst]
    obtain ⟨s1, s2, s3⟩ := bt_store_canon_spec cfg k g F texts (m - q) q
      st.cache st.results
    refine ⟨le_refl m, ?_, ?_, ?_⟩
    · rw [Nat.sub_self]
      rfl
    · intro j hj
      show (bt_store_batch cfg k g (bt_canon texts q (m - q))
        (bt_canon_replies F texts q (m - q)) st.cache
        st.results).2.lookup j = some (true, F (texts.getD j ""))
      by_cases hjq : j < q
      · rw [s1 j (Or.inl hjq)]
        exact hres j hjq
      · exact s2 j (by omega) (by omega)
    · intro j hj1 hj2
      show cache_find (bt_store_batch cfg k g (bt_canon texts q (m - q))
        (bt_canon_replies F texts q (m - q)) st.cache
        st.results).1 k g (texts.getD j "") = none
      refine s3 (texts.getD j "") (hmiss j (by omega) hj2) ?_
      intro j2 h1 h2
      exact nodup_getD_ne hnodup hj2 (by omega) (by omega)

/-- Unfolding of `add` on an uncached nonblank text that fits the pending
batch: the text is queued. -/
theorem bt_add_miss_noflush (cfg : CacheConfig) (cl : BTClient)
    (k g : String) (mc : Nat) (st : BTState) (text : String)
    (h1 : ¬ py_strip text = "")
    (h2 : cache_find st.cache k g text = none)
    (h3 : (!st.pending.isEmpty &&
      decide (mc < st.pending_chars + text.length)) = false) :
    BatchTranslator.add cfg cl k g mc st text =
      (st.next_index,
        ⟨st.cache, st.pending ++ [(text, st.next_index)],
          st.pending_chars + text.length, st.results,
          st.next_index + 1⟩) := by
  simp only [BatchTranslator.add, h2]
  rw [if_neg h1]
  simp only [h3, Bool.false_eq_true, if_false]

/-- Unfolding of `add` on an uncached nonblank text that would overflow
the pending batch: the queue is flushed first. -/
theorem bt_add_miss_flush (cfg : CacheConfig) (cl : BTClient)
    (k g : String) (mc : Nat) (st : BTState) (text : String)
    (h1 : ¬ py_strip text = "")
    (h2 : cache_find st.cache k g text = none)
    (h3 : (!st.pending.isEmpty &&
      decide (mc < st.pending_chars + text.length)) = true) :
    BatchTranslator.add cfg cl k g mc st text =
      (st.next_index,
        ⟨(BatchTranslator.flush cfg cl k g
            ⟨st.cache, st.pending, st.pending_chars, st.results,
              st.next_index + 1⟩).cache,
          (BatchTranslator.flush cfg cl k g
            ⟨st.cache, st.pending, st.pending_chars, st.results,
              st.next_index + 1⟩).pending ++ [(text, st.next_index)],
          (BatchTranslator.flush cfg cl k g
            ⟨st.cache, st.pending, st.pending_chars, st.results,
              st.next_index + 1⟩).pending_chars + text.length,
          (BatchTranslator.flush cfg cl k g
            ⟨st.cache, st.pending, st.pending_chars, st.results,
              st.next_index + 1⟩).results,
          (BatchTranslator.flush cfg cl k g
            ⟨st.cache, st.pending, st.pending_chars, st.results,
              st.next_index + 1⟩).next_index⟩) := by
  simp only [BatchTranslator.add, h2]
  rw [if_neg h1]
  simp only [h3, if_true]

/-- Adding the next text preserves the invariant and hands out its unit
index. -/
theorem bt_add_good (cfg : CacheConfig) (k g : String)
    (F : String → String) (t1 : String → Bool × String)
    (texts : List String) (mc : Nat) (hnodup : texts.Nodup)
    (hnb : ∀ t ∈ texts, py_strip t ≠ "") (q m : Nat) (st : BTState)
    (hm : m < texts.length) (hnext : st.next_index = m)
    (hgood : bt_good cfg k g F texts q m st) :
    (BatchTranslator.add cfg (echo_client F t1) k g mc st
      (texts.getD m "")).1 = m ∧
    (BatchTranslator.add cfg (echo_client F t1) k g mc st
      (texts.getD m "")).2.next_index = m + 1 ∧
    ∃ q2, bt_good cfg k g F texts q2 (m + 1)
      (BatchTranslator.add cfg (echo_client F t1) k g mc st
        (texts.getD m "")).2 := by
  have hnbm : ¬ py_strip (texts.getD m "") = "" :=
    hnb _ (getD_mem_of_lt hm)
  have hfind : cache_find st.cache k g (texts.getD m "") = none := by
    obtain ⟨_, _, _, hmiss⟩ := hgood
    exact hmiss m (le_refl m) hm
  obtain ⟨hqm, hpend, hres, hmiss⟩ := hgood
  rcases Bool.eq_false_or_eq_true (!st.pending.isEmpty &&
      decide (mc < st.pending_chars + (texts.getD m "").length)) with
    hcond | hcond
  case inr =>
    rw [bt_add_miss_noflush cfg (echo_client F t1) k g mc st
      (texts.getD m "") hnbm hfind hcond]
    refine ⟨hnext, by rw [hnext], q, ?_, ?_, ?_, ?_⟩
    · omega
    · show st.pending ++ [(texts.getD m "", st.next_index)] =
        bt_canon texts q (m + 1 - q)
      have hc1 : q + (m - q) = m := by omega
      have hc2 : m + 1 - q = (m - q) + 1 := by omega
      have hcat := bt_canon_concat texts q (m - q)
      rw [hc1] at hcat
      rw [hnext, hpend, hc2]
      exact hcat
    · exact hres
    · intro j hj1 hj2
      exact hmiss j (by omega) hj2
  case inl =>
    rw [bt_add_miss_flush cfg (echo_client F t1) k g mc st
      (texts.getD m "") hnbm hfind hcond]
    have hgood1 : bt_good cfg k g F texts q m
        ⟨st.cache, st.pending, st.pending_chars, st.results,
          st.next_index + 1⟩ :=
      ⟨hqm, hpend, hres, hmiss⟩
    have hgood2 := bt_flush_good cfg k g F t1 texts hnodup q m
      ⟨st.cache, st.pending, st.pending_chars, st.results,
        st.next_index + 1⟩ (by omega) hgood1
    obtain ⟨hq2, hpend2, hres2, hmiss2⟩ := hgood2
    refine ⟨hnext, ?_, m, ?_, ?_, ?_, ?_⟩
    · show (BatchTranslator.flush cfg (echo_client F t1) k g
        ⟨st.cache, st.pending, st.pending_chars, st.results,
          st.next_index + 1⟩).next_index = m + 1
      rw [flush_next_index]
      show st.next_index + 1 = m + 1
      rw [hnext]
    · omega
    · show (BatchTranslator.flush cfg (echo_client F t1) k g
        ⟨st.cache, st.pending, st.pending_chars, st.results,
          st.next_index + 1⟩).pending ++ [(texts.getD m "", st.next_index)] =
        bt_canon texts m (m + 1 - m)
      rw [hpend2, Nat.sub_self, hnext]
      have hs : m + 1 - m = 1 := by omega
      rw [hs]
      rfl
    · exact hres2
    · intro j hj1 hj2
      exact hmiss2 j (by omega) hj2

/-- Adding the remaining texts yields consecutive unit indices and a good
final state. -/
theorem bt_add_all_good (cfg : CacheConfig) (k g : String)
    (F : String → String) (t1 : String → Bool × String)
    (texts : List String) (mc : Nat) (hnodup : texts.Nodup)
    (hnb : ∀ t ∈ texts, py_strip t ≠ "") :
    ∀ (rest : List String) (m q : Nat) (st : BTState),
      texts.drop m = rest → st.next_index = m →
      bt_good cfg k g F texts q m st →
      (bt_add_all cfg (echo_client F t1) k g mc rest st).1 =
        List.range' m rest.length ∧
      (bt_add_all cfg (echo_client F t1) k g mc rest st).2.next_index =
        m + rest.length ∧
      ∃ q2, bt_good cfg k g F texts q2 (m + rest.length)
        (bt_add_all cfg (echo_client F t1) k g mc rest st).2 := by
  intro rest
  induction rest with
  | nil =>
    intro m q st _ hnext hgood
    exact ⟨rfl, by simpa using hnext, q, by simpa using hgood⟩
  | cons t rest2 ih =>
    intro m q st hdrop hnext hgood
    have hm : m < texts.length := by
      by_contra hc
      rw [List.drop_eq_nil_of_le (by omega)] at hdrop
      exact List.cons_ne_nil t rest2 hdrop.symm
    have ht : texts.getD m "" = t := by
      rw [List.getD_eq_getElem?_getD]
      have h0 : texts[m]? = (texts.drop m)[0]? := by
        rw [List.getElem?_drop, Nat.add_zero]
      rw [h0, hdrop]
      simp
    have hdrop2 : texts.drop (m + 1) = rest2 := by
      have hdd := List.drop_drop 1 m texts
      rw [hdd.symm, hdrop]
      rfl
    obtain ⟨ha1, ha2, q2, ha3⟩ := bt_add_good cfg k g F t1 texts mc
      hnodup hnb q m st hm hnext hgood
    rw [ht] at ha1 ha2 ha3
    obtain ⟨hb1, hb2, q3, hb3⟩ := ih (m + 1) q2
      (BatchTranslator.add cfg (echo_client F t1) k g mc st t).2
      hdrop2 ha2 ha3
    refine ⟨?_, ?_, q3, ?_⟩
    · show (BatchTranslator.add cfg (echo_client F t1) k g mc st t).1 ::
        (bt_add_all cfg (echo_client F t1) k g mc rest2
          (BatchTranslator.add cfg (echo_client F t1) k g mc st t).2).1 =
        List.range' m (rest2.length + 1)
      rw [List.range'_succ, ha1, hb1]
    · show (bt_add_all cfg (echo_client F t1) k g mc rest2
        (BatchTranslator.add cfg (echo_client F t1) k g mc st t).2).2.next_index =
        m + (rest2.length + 1)
      rw [hb2]
      omega
    · show bt_good cfg k g F texts q3 (m + (rest2.length + 1))
        (bt_add_all cfg (echo_client F t1) k g mc rest2
          (BatchTranslator.add cfg (echo_client F t1) k g mc st t).2).2
      have hmm : m + (rest2.length + 1) = m + 1 + rest2.length := by omega
      rw [hmm]
      exact hb3

/-- Getting units whose lookups are already resolved returns the echoes
without touching the state. -/
theorem bt_get_all_resolved (cfg : CacheConfig) (cl : BTClient)
    (k g : String) (F : String → String) (texts : List String) :
    ∀ (n i : Nat) (st : BTState),
      (∀ j, i ≤ j → j < i + n →
        st.results.lookup j = some (true, F (texts.getD j ""))) →
      bt_get_all cfg cl k g (List.range' i n) st =
        (List.range' i n).map (fun j => (true, F (texts.getD j ""))) := by
  intro n
  induction n with
  | zero => intro i st _; rfl
  | succ n ih =>
    intro i st hres
    rw [List.range'_succ]
    have hl := hres i (le_refl i) (by omega)
    show (BatchTranslator.get cfg cl k g st i).1 ::
      bt_get_all cfg cl k g (List.range' (i + 1) n)
        (BatchTranslator.get cfg cl k g st i).2 = _
    have hget : BatchTranslator.get cfg cl k g st i =
        ((true, F (texts.getD i "")), st) := by
      simp only [BatchTranslator.get, hl, Option.isNone_some,
        Bool.false_eq_true, if_false, Option.getD_some]
    rw [hget, List.map_cons]
    show (true, F (texts.getD i "")) :: bt_get_all cfg cl k g
      (List.range' (i + 1) n) st = _
    rw [ih (i + 1) st (fun j h1 h2 => hres j (by omega) (by omega))]

/-- Mapping a function over positions of a list is mapping it over the
list. -/
theorem range'_map_getD {α β : Type} (l : List α) (d : α) (f : α → β) :
    (List.range' 0 l.length).map (fun j => f (l.getD j d)) = l.map f := by
  apply List.ext_getElem
  · simp
  · intro i h1 h2
    simp only [List.getElem_map, List.getElem_range']
    rw [List.getD_eq_getElem l d (by simpa using h2)]
    simp

/-- C1: for every list of unique nonblank texts absent from the cache and
every configured batch character limit — including limits that split the
list into 1, 2, or N batches — `BatchTranslator.translate_all` against a
backend whose `translate_batch` echoes one reply `F t` per submitted
segment `t` returns exactly one result per text, the result at position
`i` being `(True, F texts[i])`. -/
theorem c1_translate_all_roundtrip (cfg : CacheConfig) (F : String → String)
    (t1 : String → Bool × String) (tgt : String) (src_lang : Option String)
    (max_batch_chars : Nat) (cache : CacheState) (texts : List String)
    (hnodup : texts.Nodup) (hnb : ∀ t ∈ texts, py_strip t ≠ "")
    (hmiss : ∀ t ∈ texts,
      cache_find cache (py_lower (src_lang.getD "auto")) tgt t = none) :
    BatchTranslator.translate_all cfg ⟨fun ts => (true, ts.map F), t1⟩ tgt
      src_lang max_batch_chars cache texts =
      texts.map (fun t => (true, F t)) := by
  have hgood0 : bt_good cfg (py_lower (src_lang.getD "auto")) tgt F texts 0 0
      ⟨cache, [], 0, [], 0⟩ :=
    ⟨le_refl 0, rfl, fun j hj => absurd hj (by omega),
      fun j _ hj => hmiss _ (getD_mem_of_lt hj)⟩
  obtain ⟨h1, h2, q2, h3⟩ := bt_add_all_good cfg
    (py_lower (src_lang.getD "auto")) tgt F t1 texts
    (max MIN_MAX_BATCH_CHARS (min max_batch_chars MAX_MAX_BATCH_CHARS))
    hnodup hnb texts 0 0 ⟨cache, [], 0, [], 0⟩ (List.drop_zero texts) rfl
    hgood0
  have hflush := bt_flush_good cfg (py_lower (src_lang.getD "auto")) tgt F
    t1 texts hnodup q2 (0 + texts.length) _ (by omega) h3
  show bt_get_all cfg (echo_client F t1) (py_lower (src_lang.getD "auto"))
    tgt
    (bt_add_all cfg (echo_client F t1) (py_lower (src_lang.getD "auto")) tgt
      (max MIN_MAX_BATCH_CHARS (min max_batch_chars MAX_MAX_BATCH_CHARS))
      texts ⟨cache, [], 0, [], 0⟩).1
    (BatchTranslator.flush cfg (echo_client F t1)
      (py_lower (src_lang.getD "auto")) tgt
      (bt_add_all cfg (echo_client F t1) (py_lower (src_lang.getD "auto"))
        tgt
        (max MIN_MAX_BATCH_CHARS (min max_batch_chars MAX_MAX_BATCH_CHARS))
        texts ⟨cache, [], 0, [], 0⟩).2) =
    texts.map (fun t => (true, F t))
  rw [h1]
  obtain ⟨_, _, hres2, _⟩ := hflush
  rw [bt_get_all_resolved cfg (echo_client F t1)
    (py_lower (src_lang.getD "auto")) tgt F texts texts.length 0 _
    (fun j hj1 hj2 => hres2 j (by omega))]
  exact range'_map_getD texts "" (fun t => (true, F t))

/-- C1 witness: three unique texts against the `ECHO-` echo backend come
back in order. -/
theorem c1_translate_all_roundtrip_witness :
    (["Aa", "Bb", "Cc"] : List String).Nodup ∧
    (∀ t ∈ (["Aa", "Bb", "Cc"] : List String), py_strip t ≠ "") ∧
    (∀ t ∈ (["Aa", "Bb", "Cc"] : List String),
      cache_find empty_cache
        (py_lower ((none : Option String).getD "auto")) "fr" t = none) ∧
    BatchTranslator.translate_all ⟨50000, 5000⟩
      ⟨fun ts => (true, ts.map (fun t => "ECHO-" ++ t)),
        fun _ => (false, "")⟩ "fr" none 0 empty_cache
      ["Aa", "Bb", "Cc"] =
      [(true, "ECHO-Aa"), (true, "ECHO-Bb"), (true, "ECHO-Cc")] :=
  ⟨by decide, by decide, by decide,
    (c1_translate_all_roundtrip ⟨50000, 5000⟩ (fun t => "ECHO-" ++ t)
      (fun _ => (false, "")) "fr" none 0 empty_cache ["Aa", "Bb", "Cc"]
      (by decide) (by decide) (by decide)).trans (by rfl)⟩

/-! ### C4 : inline-render idempotence

`inline_renderer.py` / `docx_parser.py`.  A paragraph is its list of run
texts; the paragraph's text is the concatenation of its runs (the
renderer's in-paragraph line breaks sit between runs and carry no marker,
so they are immaterial to marker detection and are elided).
-/

/-- The zero-width marker `INSERT_MARKER = "​"`. -/
def INSERT_MARKER : String := "​"

/-- `InlineRenderer._add_translation_paragraph`: one run per line of the
translation text, then the marker run. -/
def add_translation_paragraph (text : String) : List String :=
  py_split text "\n" ++ [INSERT_MARKER]

/-- `DocxParser._is_inserted_translation`: some run contains the
marker. -/
def is_inserted_translation (runs : List String) : Bool :=
  runs.any (fun r => py_contains r INSERT_MARKER)

/-- `DocxParser._extract_paragraph` (content only): skip blank paragraphs
and previously inserted translations. -/
def extract_paragraph (runs : List String) : Option String :=
  if py_strip (py_concat runs) = "" then none
  else if is_inserted_translation runs then none
  else some (py_concat runs)

/-- The parser's body scan over the paragraphs of a document. -/
def parse_paragraphs (doc : List (List String)) : List String :=
  doc.filterMap extract_paragraph

/-- `InlineRenderer.render` on translatable elements with available
translations: each original paragraph followed by its inserted
translation paragraph. -/
def render_inline (tr : String → String) : List String → List (List String)
  | [] => []
  | o :: rest =>
    [o] :: add_translation_paragraph (tr o) :: render_inline tr rest

theorem contains_single (c : Char) :
    ∀ l : List Char, list_contains_sub [c] l = l.any (fun x => c == x) := by
  intro l
  induction l with
  | nil => rfl
  | cons x rest ih =>
    rw [list_contains_sub]
    have h1 : List.isPrefixOf [c] (x :: rest) = (c == x) := by
      show ((c == x) && List.isPrefixOf [] rest) = (c == x)
      rw [List.isPrefixOf]
      exact Bool.and_true _
    rw [h1, List.any_cons, ih]

/-- Because the marker is a single character, a paragraph has a
marker-bearing run exactly when its concatenated text contains the
marker. -/
theorem is_inserted_concat (runs : List String) :
    is_inserted_translation runs =
      py_contains (py_concat runs) INSERT_MARKER := by
  induction runs with
  | nil => rfl
  | cons r rest ih =>
    show (py_contains r INSERT_MARKER ||
      is_inserted_translation rest) = _
    rw [ih]
    unfold py_contains
    have hd : (py_concat (r :: rest)).data =
        r.data ++ (py_concat rest).data := by
      show (r ++ py_concat rest).data = _
      exact String.data_append r (py_concat rest)
    rw [hd]
    have hm : INSERT_MARKER.data = ['​'] := rfl
    rw [hm, contains_single, contains_single, contains_single,
      List.any_append]

/-- The parser never extracts a marker-bearing paragraph. -/
theorem extract_skip_marked {runs : List String}
    (h : is_inserted_translation runs = true) :
    extract_paragraph runs = none := by
  unfold extract_paragraph
  rw [h]
  split_ifs with h1 h2
  · rfl
  · rfl
  · exact absurd rfl h2

/-- Every paragraph the renderer inserts is marker-bearing. -/
theorem add_translation_marked (t : String) :
    is_inserted_translation (add_translation_paragraph t) = true := by
  unfold is_inserted_translation add_translation_paragraph
  rw [List.any_append]
  have h : (List.any [INSERT_MARKER]
      (fun r => py_contains r INSERT_MARKER)) = true := by decide
  rw [h, Bool.or_true]

/-- Re-parsing a rendered document recovers exactly the original
paragraph texts: all inserted translations are skipped. -/
theorem parse_render_roundtrip (tr : String → String) :
    ∀ originals : List String,
      (∀ o ∈ originals, py_strip o ≠ "" ∧
        py_contains o INSERT_MARKER = false) →
      parse_paragraphs (render_inline tr originals) = originals := by
  intro originals
  induction originals with
  | nil => intro _; rfl
  | cons o rest ih =>
    intro h
    obtain ⟨ho1, ho2⟩ := h o (List.mem_cons_self o rest)
    show List.filterMap extract_paragraph
      ([o] :: add_translation_paragraph (tr o) ::
        render_inline tr rest) = o :: rest
    rw [List.filterMap_cons, List.filterMap_cons]
    have hoc : py_concat [o] = o := by
      show o ++ "" = o
      simp
    have he : extract_paragraph [o] = some o := by
      unfold extract_paragraph
      rw [hoc]
      rw [if_neg ho1, if_neg ?hins]
      case hins =>
        show ¬ is_inserted_translation [o] = true
        unfold is_inserted_translation
        rw [List.any_cons, List.any_nil, ho2, Bool.false_or]
        exact Bool.false_ne_true
    rw [he, extract_skip_marked (add_translation_marked (tr o))]
    show o :: List.filterMap extract_paragraph (render_inline tr rest) =
      o :: rest
    have ih2 := ih (fun u hu => h u (List.mem_cons_of_mem o hu))
    unfold parse_paragraphs at ih2
    rw [ih2]

/-- C4: every translation paragraph the inline renderer inserts ends with
the zero-width marker run U+200B; the parser skips exactly the paragraphs
whose text contains the marker; therefore re-running the
parse-translate-render pipeline on already-translated output re-extracts
only the original paragraphs and re-inserts nothing beyond what a single
run inserts — no duplicated translation blocks. -/
theorem c4_inline_marker_idempotence :
    (∀ t, (add_translation_paragraph t).getLast? = some INSERT_MARKER) ∧
    (∀ runs, is_inserted_translation runs =
      py_contains (py_concat runs) INSERT_MARKER) ∧
    (∀ runs, is_inserted_translation runs = true →
      extract_paragraph runs = none) ∧
    (∀ t, is_inserted_translation (add_translation_paragraph t) = true) ∧
    (∀ (tr tr2 : String → String) (originals : List String),
      (∀ o ∈ originals, py_strip o ≠ "" ∧
        py_contains o INSERT_MARKER = false) →
      parse_paragraphs (render_inline tr originals) = originals ∧
      render_inline tr2
        (parse_paragraphs (render_inline tr originals)) =
        render_inline tr2 originals) := by
  refine ⟨?_, is_inserted_concat, fun runs h => extract_skip_marked h,
    add_translation_marked, ?_⟩
  · intro t
    unfold add_translation_paragraph
    exact List.getLast?_concat _
  · intro tr tr2 originals h
    have hp := parse_render_roundtrip tr originals h
    exact ⟨hp, by rw [hp]⟩

/-- C4 witness: a one-paragraph document survives the round trip and a
second render changes nothing. -/
theorem c4_inline_marker_idempotence_witness :
    (∀ o ∈ (["Hello world"] : List String), py_strip o ≠ "" ∧
      py_contains o INSERT_MARKER = false) ∧
    parse_paragraphs (render_inline (fun _ => "Bonjour le monde")
      ["Hello world"]) = ["Hello world"] ∧
    render_inline (fun _ => "Salut")
      (parse_paragraphs (render_inline (fun _ => "Bonjour le monde")
        ["Hello world"])) =
      render_inline (fun _ => "Salut") ["Hello world"] :=
  ⟨by decide,
    (c4_inline_marker_idempotence.2.2.2.2 (fun _ => "Bonjour le monde")
      (fun _ => "Salut") ["Hello world"] (by decide)).1,
    (c4_inline_marker_idempotence.2.2.2.2 (fun _ => "Bonjour le monde")
      (fun _ => "Salut") ["Hello world"] (by decide)).2⟩

end TranslateTool
